import Mathlib

/-!
A verification development for the guitar-practice note-mapping and
playback-scheduling engine.  Each definition is a shallow embedding of the
corresponding TypeScript function; JavaScript numbers are modelled as `Int`
(MIDI arithmetic) or `ℚ` (fractional scores and millisecond delays), and
calls to `Math.random` are modelled by explicit choice functions constrained
by the ranges `Math.random`-based expressions can take.
-/

namespace GuitarPractice

/-! ## Pitch model — `src/renderer/utils/guitarConstants.ts` -/

/-- The twelve chromatic note names of `ALL_NOTE_NAMES`, sharps spelling,
written here as two halves of the octave joined together. -/
def ALL_NOTE_NAMES : List String :=
  ["C", "C#", "D", "D#", "E", "F"] ++
    ["F#", "G", "G#", "A", "A#", "B"]

/-- Open-string MIDI pitches for strings 1..6 — `STANDARD_TUNING_MIDI`. -/
def STANDARD_TUNING_MIDI : List Int := [64, 59, 55, 50, 45, 40]

/-- Source `MAX_FRET`. -/
def MAX_FRET : Int := 14

/-- Semitone offsets of scale degrees 1..7 — `MAJOR_SCALE_SEMITONES`. -/
def MAJOR_SCALE_SEMITONES : List Int := [0, 2, 4, 5, 7, 9, 11]

/-- JavaScript `Array.prototype.indexOf`: first index of `a`, or `-1`. -/
def jsIndexOf [BEq α] (l : List α) (a : α) : Int :=
  match l.findIdx? (fun x => x == a) with
  | some i => (i : Int)
  | none => -1

/-- Source `noteNameToIndex` (via `ALL_NOTE_NAMES.indexOf`). -/
def noteNameToIndex (name : String) : Int := jsIndexOf ALL_NOTE_NAMES name

/-- JavaScript `%` on integers: truncating remainder. -/
def jsMod (a b : Int) : Int := Int.tmod a b

/-- Source `midiToTonePitch`: note name plus octave, such as `"C4"`. -/
def midiToTonePitch (midi : Int) : String :=
  let noteIndex := jsMod (jsMod midi 12 + 12) 12
  let octave := Int.fdiv midi 12 - 1
  (ALL_NOTE_NAMES.getD noteIndex.toNat "") ++ toString octave

/-- Source `midiToNoteName`. -/
def midiToNoteName (midi : Int) : String :=
  ALL_NOTE_NAMES.getD (jsMod (jsMod midi 12 + 12) 12).toNat ""

/-- Structure `GuitarPosition` from `types/guitar.d.ts`: string number 1..6, fret 0..14. -/
structure GuitarPosition where
  string : Nat
  fret : Int
deriving DecidableEq, Repr

/-- Source `getNoteMidi`: MIDI pitch of a string/fret pair. -/
def getNoteMidi (stringNum : Nat) (fret : Int) : Int :=
  STANDARD_TUNING_MIDI.getD (stringNum - 1) 0 + fret

/-! ## Position resolver — `src/renderer/utils/noteMapping.ts`

Both `findBestPosition` and `findBestPositionFromDo` run the same
`for (let s = 1; s <= 6; s++)` loop, differing only in the score they
minimise; the loop is embedded as a fold of `bestStep` over the string
numbers `[1,...,6]` with the source's initial state
`bestPos = {string: 1, fret: 0}`, `bestDistance/bestScore = Infinity`
(`none` stands for `Infinity`). -/

/-- The string numbers `s = 1..6` walked by the resolver loops. -/
def stringsIdx : List Nat := List.range' 1 6

/-- The table read `STANDARD_TUNING_MIDI[s - 1]` as done inside the resolver loops. -/
def getOpenMidi (s : Nat) : Int := STANDARD_TUNING_MIDI.getD (s - 1) 0

/-- The candidate fret `targetMidi - openMidi` on string `s`. -/
def fretOn (targetMidi : Int) (s : Nat) : Int := targetMidi - getOpenMidi s

/-- The loop's guard `fret >= 0 && fret <= MAX_FRET`. -/
def Reachable (targetMidi : Int) (s : Nat) : Prop :=
  0 ≤ fretOn targetMidi s ∧ fretOn targetMidi s ≤ MAX_FRET

instance (targetMidi : Int) (s : Nat) : Decidable (Reachable targetMidi s) :=
  inferInstanceAs (Decidable (_ ∧ _))

/-- One iteration of the resolver loop, generic in the score being minimised
(`score s fret`); the comparison `distance < bestDistance` keeps the first
candidate on ties. -/
def bestStep [LinearOrder β] (targetMidi : Int) (score : Nat → Int → β)
    (st : GuitarPosition × Option β) (s : Nat) : GuitarPosition × Option β :=
  let fret := targetMidi - getOpenMidi s
  if 0 ≤ fret ∧ fret ≤ MAX_FRET then
    let d := score s fret
    match st.2 with
    | none => (⟨s, fret⟩, some d)
    | some best => if d < best then (⟨s, fret⟩, some d) else st
  else st

/-- The full resolver loop returning `bestPos`. -/
def bestSearch [LinearOrder β] (targetMidi : Int) (score : Nat → Int → β) :
    GuitarPosition :=
  (stringsIdx.foldl (bestStep targetMidi score) (⟨1, 0⟩, none)).1

/-- Source `findBestPosition`: distance `|fret - ref.fret| + |s - ref.string| * 2`. -/
def findBestPosition (targetMidi : Int) (referencePos : GuitarPosition) :
    GuitarPosition :=
  bestSearch targetMidi (fun s fret =>
    (|fret - referencePos.fret| + |(s : Int) - (referencePos.string : Int)| * 2 : Int))

/-- Source `findBestPositionFromDo`: score `fretDiff * 1.5 + stringDiff * 2`. -/
def findBestPositionFromDo (targetMidi : Int) (doPosition : GuitarPosition) :
    GuitarPosition :=
  bestSearch targetMidi (fun s fret =>
    ((|fret - doPosition.fret| : Int) : ℚ) * 1.5 +
      ((|(s : Int) - (doPosition.string : Int)| : Int) : ℚ) * 2)

/-- Table `C_MAJOR_STANDARD_POSITIONS`; outside 1..7 the record has no entry, which
this total model maps to a dummy position (never used under the claims'
hypotheses). -/
def C_MAJOR_STANDARD_POSITIONS : Nat → GuitarPosition
  | 1 => ⟨5, 3⟩
  | 2 => ⟨4, 0⟩
  | 3 => ⟨4, 2⟩
  | 4 => ⟨4, 3⟩
  | 5 => ⟨3, 0⟩
  | 6 => ⟨3, 2⟩
  | 7 => ⟨2, 0⟩
  | _ => ⟨0, 0⟩

/-- Structure `MappedNote` from `types/guitar.d.ts`. -/
structure MappedNote where
  solfege : Nat
  position : GuitarPosition
  pitch : String
  noteName : String
deriving DecidableEq, Repr

/-- Source `mapByPitchImpl` (uncached implementation). -/
def mapByPitchImpl (solfege : Nat) (doNoteName : String) : MappedNote :=
  if doNoteName = "C" then
    let pos := C_MAJOR_STANDARD_POSITIONS solfege
    let midi := getNoteMidi pos.string pos.fret
    { solfege := solfege, position := pos, pitch := midiToTonePitch midi,
      noteName := midiToNoteName midi }
  else
    let transposeSemitones := noteNameToIndex doNoteName - noteNameToIndex "C"
    let cPos := C_MAJOR_STANDARD_POSITIONS solfege
    let cMidi := getNoteMidi cPos.string cPos.fret
    let targetMidi := cMidi + transposeSemitones
    let position := findBestPosition targetMidi cPos
    { solfege := solfege, position := position, pitch := midiToTonePitch targetMidi,
      noteName := midiToNoteName targetMidi }

/-- Source `mapByPositionImpl` (uncached implementation). -/
def mapByPositionImpl (solfege : Nat) (doPosition : GuitarPosition) : MappedNote :=
  let doMidi := getNoteMidi doPosition.string doPosition.fret
  let semitoneOffset := MAJOR_SCALE_SEMITONES.getD (solfege - 1) 0
  let targetMidi := doMidi + semitoneOffset
  let position := findBestPositionFromDo targetMidi doPosition
  { solfege := solfege, position := position, pitch := midiToTonePitch targetMidi,
    noteName := midiToNoteName targetMidi }

/-! ## Sequence generator — `src/renderer/utils/sequenceGenerator.ts`

`randS i` models `Math.floor(Math.random() * (i + 1))` inside `shuffle`
(hence the hypothesis `randS i ≤ i`), and `randE i` models
`Math.floor(Math.random() * 7)` in the filling loop (hence `randE i ≤ 6`). -/

/-- Source `ALL_SOLFEGE`. -/
def ALL_SOLFEGE : List Nat := [1, 2, 3, 4, 5, 6, 7]

/-- The destructuring swap `[r[i], r[j]] = [r[j], r[i]]` inside `shuffle`. -/
def listSwap (l : List α) (i j : Nat) : List α :=
  match l[i]?, l[j]? with
  | some a, some b => (l.set i b).set j a
  | _, _ => l

/-- The `for (let i = length - 1; i > 0; i--)` loop of `shuffle`. -/
def shuffleFrom (rand : Nat → Nat) : Nat → List α → List α
  | 0, l => l
  | i + 1, l => shuffleFrom rand i (listSwap l (i + 1) (rand (i + 1)))

/-- Fisher-Yates `shuffle` (operating on a copy of the input array). -/
def shuffle (rand : Nat → Nat) (arr : List α) : List α :=
  shuffleFrom rand (arr.length - 1) arr

/-- Source `generateSequence`. -/
def generateSequence (randS randE : Nat → Nat) (length : Nat) : List Nat :=
  let safeLength := max 7 length
  let base := shuffle randS ALL_SOLFEGE
  if safeLength = 7 then base
  else base ++ (List.range (safeLength - 7)).map (fun i => randE i + 1)

/-! ## Mapping cache — `src/renderer/utils/noteMapping.ts` -/

/-- Source `getCacheKey`. -/
def getCacheKey (solfege : Nat) (doMode : String) (doValue : String) : String :=
  s!"{solfege}-{doMode}-{doValue}"

/-- The global `NOTE_CACHE`, modelled as explicit state threaded through the
accessors. -/
abbrev Cache := List (String × MappedNote)

/-- Source `precomputeMappings`: look up, else compute and store.  The source's
non-null assertions (`doNoteName!`, `doPosition?.`) are modelled by defaults
that are never reached for the shapes `mapByPitch`/`mapByPosition` pass. -/
def precomputeMappings (cache : Cache) (solfege : Nat) (doMode : String)
    (doNoteName : Option String) (doPosition : Option GuitarPosition) :
    MappedNote × Cache :=
  let doValue := if doMode = "pitch" then doNoteName.getD "undefined"
    else match doPosition with
      | some p => s!"{p.string}-{p.fret}"
      | none => "undefined-undefined"
  let cacheKey := getCacheKey solfege doMode doValue
  match cache.lookup cacheKey with
  | some v => (v, cache)
  | none =>
    let result := if doMode = "pitch" then
        mapByPitchImpl solfege (doNoteName.getD "undefined")
      else mapByPositionImpl solfege (doPosition.getD ⟨0, 0⟩)
    (result, (cacheKey, result) :: cache)

/-- Source `mapByPitch` (cached entry point). -/
def mapByPitch (cache : Cache) (solfege : Nat) (doNoteName : String) :
    MappedNote × Cache :=
  precomputeMappings cache solfege "pitch" (some doNoteName) none

/-- Source `mapByPosition` (cached entry point). -/
def mapByPosition (cache : Cache) (solfege : Nat) (doPosition : GuitarPosition) :
    MappedNote × Cache :=
  precomputeMappings cache solfege "position" none (some doPosition)

/-- The spec's `DoSpec` tagged union. -/
inductive DoSpec where
  | byPitch (name : String)
  | byPosition (p : GuitarPosition)
deriving DecidableEq, Repr

/-- Cache access dispatched on the do-specification. -/
def getMapped (cache : Cache) (solfege : Nat) : DoSpec → MappedNote × Cache
  | .byPitch name => mapByPitch cache solfege name
  | .byPosition p => mapByPosition cache solfege p

/-- The cache key a call reads/writes. -/
def keyOf (solfege : Nat) : DoSpec → String
  | .byPitch name => getCacheKey solfege "pitch" name
  | .byPosition p => getCacheKey solfege "position" s!"{p.string}-{p.fret}"

/-- The direct, uncached computation backing a call. -/
def implOf (solfege : Nat) : DoSpec → MappedNote
  | .byPitch name => mapByPitchImpl solfege name
  | .byPosition p => mapByPositionImpl solfege p

/-- Every argument pair the application can produce: digits 1..7 paired with
either one of the twelve note names or one of the 6 × 15 fretboard
positions. -/
def allCalls : List (Nat × DoSpec) :=
  (List.range' 1 7).flatMap fun s =>
    ALL_NOTE_NAMES.map (fun n => (s, DoSpec.byPitch n)) ++
      ((List.range' 1 6).flatMap fun st =>
        (List.range 15).map fun f => (s, DoSpec.byPosition ⟨st, (f : Int)⟩))

/-- Cache well-formedness: every stored entry is the uncached result for some
valid call serialising to its key. -/
def CacheWF (c : Cache) : Prop :=
  ∀ k v, (k, v) ∈ c → ∃ sd ∈ allCalls, k = keyOf sd.1 sd.2 ∧ v = implOf sd.1 sd.2

/-- Split a character list at every `'-'` (the cache key separator). -/
def splitDash : List Char → List (List Char)
  | [] => [[]]
  | c :: cs =>
    let r := splitDash cs
    if c = '-' then [] :: r
    else
      match r with
      | [] => [[c]]
      | h :: t => (c :: h) :: t

/-- Parse a decimal digit character. -/
def charDigit (c : Char) : Option Nat :=
  if '0' ≤ c ∧ c ≤ '9' then some (c.toNat - '0'.toNat) else none

def digitsToNatAux : Nat → List Char → Option Nat
  | acc, [] => some acc
  | acc, c :: cs =>
    match charDigit c with
    | some d => digitsToNatAux (acc * 10 + d) cs
    | none => none

/-- Parse a non-empty decimal numeral. -/
def digitsToNat : List Char → Option Nat
  | [] => none
  | l => digitsToNatAux 0 l

/-- Parser inverting `keyOf` on valid calls, witnessing that distinct valid
calls never collide on a cache key. -/
def parseKey (k : String) : Option (Nat × DoSpec) :=
  match (splitDash k.data).map String.mk with
  | [d, m, n] =>
    if m = "pitch" then (digitsToNat d.data).map (fun s => (s, DoSpec.byPitch n))
    else none
  | [d, m, a, b] =>
    if m = "position" then
      match digitsToNat d.data, digitsToNat a.data, digitsToNat b.data with
      | some s, some x, some y => some (s, DoSpec.byPosition ⟨x, (y : Int)⟩)
      | _, _, _ => none
    else none
  | _ => none

/-! ## Playback scheduler — `src/renderer/hooks/useNoteSequence.ts`

The hook is embedded as a state machine.  `setTimeout` handles are modelled
explicitly: every `setTimeout` call appends a `Timer` with a fresh id, its
millisecond delay and the index its callback will play; `timerRef` and
`prepareTimerRef` hold the id last stored in the corresponding React ref, so
`clearTimeout(ref.current)` removes exactly the ref'd live timer and is a
no-op once that timer has fired.  `triggered` logs the indices whose note was
handed to the audio backend (`playNote`), in order. -/

inductive PBState where
  | idle
  | playing
  | paused
deriving DecidableEq, Repr

/-- Structure `AppSettings` (the fields the engine reads). -/
structure Settings where
  doMode : String
  doNoteName : String
  doPosition : GuitarPosition
  bpm : ℚ
  sequenceLength : Nat
  prepareDelayMs : ℚ
deriving DecidableEq, Repr

/-- A live `setTimeout` handle. -/
structure Timer where
  id : Nat
  delay : ℚ
  target : Int
deriving DecidableEq, Repr

structure SchedState where
  sequence : List Nat
  mappedNotes : List MappedNote
  playbackState : PBState
  currentIndex : Int
  currentNote : Option MappedNote
  advTimers : List Timer
  timerRef : Option Nat
  prepTimers : List Timer
  prepareRef : Option Nat
  triggered : List Int
  nextId : Nat
deriving DecidableEq, Repr

/-- The hook's initial state. -/
def initialSchedState : SchedState :=
  { sequence := [], mappedNotes := [], playbackState := .idle, currentIndex := -1,
    currentNote := none, advTimers := [], timerRef := none, prepTimers := [],
    prepareRef := none, triggered := [], nextId := 0 }

/-- JavaScript array indexing `arr[i]` with an arbitrary integer index. -/
def jsGetElem (l : List α) (i : Int) : Option α :=
  if i < 0 then none else l[i.toNat]?

/-- The mapping the hook's `useEffect` applies to each digit of a fresh
sequence (the hook goes through the cache; by cache transparency — claim C8 —
the value equals the uncached implementation used here). -/
def mapNoteForSettings (s : Settings) (solfege : Nat) : MappedNote :=
  if s.doMode = "pitch" then mapByPitchImpl solfege s.doNoteName
  else mapByPositionImpl solfege s.doPosition

/-- Source `clearPrepareTimer`. -/
def clearPrepareTimer (st : SchedState) : SchedState :=
  match st.prepareRef with
  | some h =>
    { st with
      prepTimers := st.prepTimers.filter (fun t => t.id != h),
      prepareRef := none }
  | none => st

/-- The inline `if (timerRef.current) { clearTimeout(…); timerRef.current = null }`
used by `play`, `playFromIndex`, `pause` and `stop`. -/
def clearAdvanceTimer (st : SchedState) : SchedState :=
  match st.timerRef with
  | some h =>
    { st with
      advTimers := st.advTimers.filter (fun t => t.id != h),
      timerRef := none }
  | none => st

/-- Source `playNoteAtIndex`: finish when past the end; otherwise trigger the mapped
note, move the cursor, and — when still playing — schedule the advance timer
with delay `(60 / bpm) * 1000`, overwriting `timerRef` without clearing. -/
def playNoteAtIndex (s : Settings) (st : SchedState) (index : Int) : SchedState :=
  if (st.sequence.length : Int) ≤ index then
    { st with playbackState := .idle, currentIndex := -1, currentNote := none }
  else
    match jsGetElem st.mappedNotes index with
    | none => st
    | some mapped =>
      let st1 :=
        { st with
          currentIndex := index,
          currentNote := some mapped,
          triggered := st.triggered ++ [index] }
      if st1.playbackState = .playing then
        let intervalMs := (60 / s.bpm) * 1000
        { st1 with
          advTimers := st1.advTimers ++ [⟨st1.nextId, intervalMs, index + 1⟩],
          timerRef := some st1.nextId,
          nextId := st1.nextId + 1 }
      else st1

/-- Source `play`. -/
def play (s : Settings) (st : SchedState) : SchedState :=
  if st.sequence = [] then st
  else
    let st1 := clearPrepareTimer (clearAdvanceTimer st)
    let st2 := { st1 with playbackState := .playing }
    if 0 < s.prepareDelayMs then
      { st2 with
        prepTimers := st2.prepTimers ++ [⟨st2.nextId, s.prepareDelayMs, 0⟩],
        prepareRef := some st2.nextId,
        nextId := st2.nextId + 1 }
    else playNoteAtIndex s st2 0

/-- Source `playFromIndex`. -/
def playFromIndex (s : Settings) (st : SchedState) (index : Int) : SchedState :=
  if st.sequence = [] then st
  else if index < 0 ∨ (st.sequence.length : Int) ≤ index then st
  else
    let st1 := clearPrepareTimer (clearAdvanceTimer st)
    let st2 := { st1 with playbackState := .playing }
    playNoteAtIndex s st2 index

/-- Source `pause`. -/
def pause (st : SchedState) : SchedState :=
  clearAdvanceTimer (clearPrepareTimer { st with playbackState := .paused })

/-- Source `resume`. -/
def resume (s : Settings) (st : SchedState) : SchedState :=
  let st1 := { st with playbackState := .playing }
  let nextIndex := st1.currentIndex + 1
  if nextIndex < (st1.sequence.length : Int) then playNoteAtIndex s st1 nextIndex
  else st1

/-- Source `stop`. -/
def stop (st : SchedState) : SchedState :=
  clearAdvanceTimer (clearPrepareTimer
    { st with playbackState := .idle, currentIndex := -1, currentNote := none })

/-- Source `generate` (modelled random draws as for `generateSequence`; the
`useEffect` recomputation of `mappedNotesRef` is folded in synchronously). -/
def generate (s : Settings) (randS randE : Nat → Nat) (st : SchedState) :
    SchedState :=
  let st1 := stop st
  let newSeq := generateSequence randS randE s.sequenceLength
  { st1 with
    sequence := newSeq,
    mappedNotes := newSeq.map (mapNoteForSettings s),
    currentIndex := -1,
    currentNote := none }

/-- A pending advance timeout fires: it is consumed (the stale handle stays in
`timerRef`, as in the source), and the callback plays its target index only if
the state is still Playing. -/
def fireAdvance (s : Settings) (st : SchedState) (t : Timer) : SchedState :=
  if t ∈ st.advTimers then
    let st1 := { st with advTimers := st.advTimers.filter (fun u => u.id != t.id) }
    if st1.playbackState = .playing then playNoteAtIndex s st1 t.target else st1
  else st

/-- A pending pre-roll timeout fires: the callback nulls `prepareTimerRef`
first, then plays index 0 if still playing. -/
def firePrepare (s : Settings) (st : SchedState) (t : Timer) : SchedState :=
  if t ∈ st.prepTimers then
    let st1 :=
      { st with
        prepTimers := st.prepTimers.filter (fun u => u.id != t.id),
        prepareRef := none }
    if st1.playbackState = .playing then playNoteAtIndex s st1 0 else st1
  else st

/-! ## Fretboard tap — `handlePositionClick` in `src/renderer/App.tsx` -/

/-- The audition branch of `handlePositionClick`: infer the solfège digit of a
tapped position from the active do settings (sentinel 0 when the tapped pitch
is not a member of the active major scale). -/
def handlePositionClick (doMode doNoteName : String) (doPosition : GuitarPosition)
    (position : GuitarPosition) : MappedNote :=
  let midi := getNoteMidi position.string position.fret
  let pitch := midiToTonePitch midi
  let noteName := midiToNoteName midi
  let doMidi : Int := if doMode = "pitch" then noteNameToIndex doNoteName
    else jsMod (getNoteMidi doPosition.string doPosition.fret) 12
  let semitoneFromDo := jsMod (jsMod midi 12 - doMidi + 12) 12
  let solfegeIdx := jsIndexOf MAJOR_SCALE_SEMITONES semitoneFromDo
  { solfege := if 0 ≤ solfegeIdx then (solfegeIdx + 1).toNat else 0,
    position := position, pitch := pitch, noteName := noteName }

/-- Loop invariant for `bestStep`: after strings `1..n`, the state holds the
first score-minimising reachable candidate among them (or the untouched
initial state when none of them is reachable). -/
def SearchInv [LinearOrder β] (targetMidi : Int) (score : Nat → Int → β)
    (n : Nat) (st : GuitarPosition × Option β) : Prop :=
  (st.2 = none → st.1 = ⟨1, 0⟩ ∧ ∀ s ∈ List.range' 1 n, ¬ Reachable targetMidi s) ∧
  ∀ b, st.2 = some b →
    (st.1.string ∈ List.range' 1 n ∧ Reachable targetMidi st.1.string ∧
      st.1.fret = fretOn targetMidi st.1.string ∧ b = score st.1.string st.1.fret) ∧
    (∀ s ∈ List.range' 1 n, Reachable targetMidi s →
      b ≤ score s (fretOn targetMidi s)) ∧
    (∀ s ∈ List.range' 1 n, Reachable targetMidi s →
      score s (fretOn targetMidi s) = b → st.1.string ≤ s)

/-! ### Permutation facts about `shuffle` -/

theorem listSwap_length (l : List α) (i j : Nat) :
    (listSwap l i j).length = l.length := by
  unfold listSwap
  split <;> simp

theorem listSwap_eq (l : List α) (i j : Nat) (hi : i < l.length) (hj : j < l.length) :
    listSwap l i j = (l.set i (l.get ⟨j, hj⟩)).set j (l.get ⟨i, hi⟩) := by
  unfold listSwap
  rw [List.getElem?_eq_getElem hi, List.getElem?_eq_getElem hj]
  simp [List.get_eq_getElem]

/-- Moving the `j`-th element of `t` to the front while overwriting slot `j`
with `a` is a permutation of `a :: t`. -/
theorem get_cons_set_perm :
    ∀ (t : List α) (j : Nat) (hj : j < t.length) (a : α),
      List.Perm (t.get ⟨j, hj⟩ :: t.set j a) (a :: t)
  | b :: s, 0, _, a => List.Perm.swap a b s
  | b :: s, k + 1, hj, a => by
    have hk : k < s.length := Nat.lt_of_succ_lt_succ (by simpa using hj)
    have h1 : List.Perm (s.get ⟨k, hk⟩ :: b :: s.set k a) (b :: s.get ⟨k, hk⟩ :: s.set k a) :=
      List.Perm.swap b (s.get ⟨k, hk⟩) (s.set k a)
    have h2 : List.Perm (b :: s.get ⟨k, hk⟩ :: s.set k a) (b :: a :: s) :=
      List.Perm.cons b (get_cons_set_perm s k hk a)
    have h3 : List.Perm (b :: a :: s) (a :: b :: s) := List.Perm.swap a b s
    exact h1.trans (h2.trans h3)

/-- The two-`set` form of a swap is a permutation. -/
theorem set_set_swap_perm :
    ∀ (l : List α) (i j : Nat) (hi : i < l.length) (hj : j < l.length),
      List.Perm ((l.set i (l.get ⟨j, hj⟩)).set j (l.get ⟨i, hi⟩)) l
  | [], i, j, hi, _ => absurd hi (by simp)
  | a :: t, 0, 0, _, _ => by simp
  | a :: t, 0, j + 1, hi, hj => by
    have hjt : j < t.length := Nat.lt_of_succ_lt_succ (by simpa using hj)
    exact get_cons_set_perm t j hjt a
  | a :: t, i + 1, 0, hi, hj => by
    have hit : i < t.length := Nat.lt_of_succ_lt_succ (by simpa using hi)
    exact get_cons_set_perm t i hit a
  | a :: t, i + 1, j + 1, hi, hj => by
    have hit : i < t.length := Nat.lt_of_succ_lt_succ (by simpa using hi)
    have hjt : j < t.length := Nat.lt_of_succ_lt_succ (by simpa using hj)
    exact List.Perm.cons a (set_set_swap_perm t i j hit hjt)

theorem listSwap_perm (l : List α) (i j : Nat) (hi : i < l.length) (hj : j < l.length) :
    List.Perm (listSwap l i j) l := by
  rw [listSwap_eq l i j hi hj]
  exact set_set_swap_perm l i j hi hj

theorem shuffleFrom_perm (rand : Nat → Nat) (hr : ∀ k, rand k ≤ k) :
    ∀ (i : Nat) (l : List α), i < l.length → List.Perm (shuffleFrom rand i l) l
  | 0, l, _ => List.Perm.refl l
  | i + 1, l, hi => by
    have h2 : rand (i + 1) < l.length := lt_of_le_of_lt (hr (i + 1)) hi
    have hlen : (listSwap l (i + 1) (rand (i + 1))).length = l.length :=
      listSwap_length l (i + 1) (rand (i + 1))
    have ih := shuffleFrom_perm rand hr i (listSwap l (i + 1) (rand (i + 1)))
      (by rw [hlen]; omega)
    exact ih.trans (listSwap_perm l (i + 1) (rand (i + 1)) hi h2)

theorem shuffle_perm (rand : Nat → Nat) (hr : ∀ k, rand k ≤ k) (arr : List α)
    (hne : arr ≠ []) : List.Perm (shuffle rand arr) arr := by
  unfold shuffle
  have hlen : 0 < arr.length := List.length_pos.mpr hne
  exact shuffleFrom_perm rand hr (arr.length - 1) arr (by omega)

/-- C1 helper: the shuffled base row is a permutation of `[1,...,7]`. -/
theorem shuffle_base_perm (randS : Nat → Nat) (hS : ∀ k, randS k ≤ k) :
    List.Perm (shuffle randS ALL_SOLFEGE) ALL_SOLFEGE :=
  shuffle_perm randS hS ALL_SOLFEGE (by simp [ALL_SOLFEGE])

/-- C1: for every requested length `L`, `generateSequence` (under any outcome
of the modelled random draws) returns a list of length `max 7 L` whose first 7
elements are a permutation of the digits 1..7, all of whose elements lie in
1..7 (in particular the digit 0 never occurs), and which contains every value
1..7 at least once. -/
theorem generateSequence_spec (randS randE : Nat → Nat) (L : Nat)
    (hS : ∀ k, randS k ≤ k) (hE : ∀ k, randE k ≤ 6) :
    (generateSequence randS randE L).length = max 7 L ∧
    List.Perm ((generateSequence randS randE L).take 7) ALL_SOLFEGE ∧
    (∀ x ∈ generateSequence randS randE L, 1 ≤ x ∧ x ≤ 7) ∧
    0 ∉ generateSequence randS randE L ∧
    (∀ v, 1 ≤ v → v ≤ 7 → v ∈ generateSequence randS randE L) := by
  have hperm := shuffle_base_perm randS hS
  have hlenb : (shuffle randS ALL_SOLFEGE).length = 7 := by
    rw [hperm.length_eq]; rfl
  have hbase : ∀ x ∈ ALL_SOLFEGE, 1 ≤ x ∧ x ≤ 7 := by decide
  have hbounds : ∀ x ∈ shuffle randS ALL_SOLFEGE, 1 ≤ x ∧ x ≤ 7 := fun x hx =>
    hbase x (hperm.mem_iff.mp hx)
  have hall : ∀ v, 1 ≤ v → v ≤ 7 → v ∈ shuffle randS ALL_SOLFEGE := by
    intro v h1 h7
    refine hperm.mem_iff.mpr ?_
    interval_cases v <;> decide
  by_cases hc : max 7 L = 7
  · have hg : generateSequence randS randE L = shuffle randS ALL_SOLFEGE := by
      simp only [generateSequence]
      rw [if_pos hc]
    rw [hg, hc]
    refine ⟨hlenb, ?_, hbounds, ?_, hall⟩
    · rw [List.take_of_length_le (le_of_eq hlenb)]
      exact hperm
    · intro h0
      exact absurd (hbounds 0 h0).1 (by omega)
  · have hg : generateSequence randS randE L = shuffle randS ALL_SOLFEGE ++
        (List.range (max 7 L - 7)).map (fun i => randE i + 1) := by
      simp only [generateSequence]
      rw [if_neg hc]
    rw [hg]
    have hmax : 7 ≤ max 7 L := le_max_left 7 L
    have hextra : ∀ x ∈ (List.range (max 7 L - 7)).map (fun i => randE i + 1),
        1 ≤ x ∧ x ≤ 7 := by
      intro x hx
      simp only [List.mem_map, List.mem_range] at hx
      obtain ⟨i, _, rfl⟩ := hx
      have := hE i
      omega
    refine ⟨?_, ?_, ?_, ?_, ?_⟩
    · simp only [List.length_append, hlenb, List.length_map, List.length_range]
      omega
    · rw [List.take_append_of_le_length (le_of_eq hlenb.symm),
        List.take_of_length_le (le_of_eq hlenb)]
      exact hperm
    · intro x hx
      rcases List.mem_append.mp hx with h | h
      · exact hbounds x h
      · exact hextra x h
    · intro h0
      rcases List.mem_append.mp h0 with h | h
      · exact absurd (hbounds 0 h).1 (by omega)
      · exact absurd (hextra 0 h).1 (by omega)
    · intro v h1 h7
      exact List.mem_append.mpr (Or.inl (hall v h1 h7))

/-- Witness for C1 at concrete random draws and `L = 10`. -/
theorem generateSequence_spec_witness :
    (∀ k : Nat, (fun k : Nat => k) k ≤ k) ∧ (∀ k : Nat, (fun _ : Nat => 0) k ≤ 6) ∧
    ((generateSequence (fun k => k) (fun _ => 0) 10).length = max 7 10 ∧
      List.Perm ((generateSequence (fun k => k) (fun _ => 0) 10).take 7) ALL_SOLFEGE ∧
      (∀ x ∈ generateSequence (fun k => k) (fun _ => 0) 10, 1 ≤ x ∧ x ≤ 7) ∧
      0 ∉ generateSequence (fun k => k) (fun _ => 0) 10 ∧
      (∀ v, 1 ≤ v → v ≤ 7 → v ∈ generateSequence (fun k => k) (fun _ => 0) 10)) :=
  ⟨fun k => Nat.le_refl k, fun _ => Nat.zero_le 6,
    generateSequence_spec (fun k => k) (fun _ => 0) 10
      (fun k => Nat.le_refl k) (fun _ => Nat.zero_le 6)⟩

/-! ### The resolver loop invariant -/

theorem searchInv_zero [LinearOrder β] (targetMidi : Int) (score : Nat → Int → β) :
    SearchInv targetMidi score 0 ((⟨1, 0⟩ : GuitarPosition), (none : Option β)) := by
  constructor
  · intro
    exact ⟨rfl, by simp⟩
  · intro b hb
    exact Option.noConfusion hb

theorem searchInv_step [LinearOrder β] (targetMidi : Int) (score : Nat → Int → β)
    (n : Nat) (st : GuitarPosition × Option β)
    (h : SearchInv targetMidi score n st) :
    SearchInv targetMidi score (n + 1) (bestStep targetMidi score st (n + 1)) := by
  obtain ⟨pos, ob⟩ := st
  obtain ⟨hnone, hsome⟩ := h
  have hmem : ∀ s, s ∈ List.range' 1 (n + 1) ↔ s ∈ List.range' 1 n ∨ s = n + 1 := by
    intro s
    rw [List.mem_range'_1, List.mem_range'_1]
    omega
  by_cases hr : 0 ≤ targetMidi - getOpenMidi (n + 1) ∧
      targetMidi - getOpenMidi (n + 1) ≤ MAX_FRET
  · cases ob with
    | none =>
      have hstep : bestStep targetMidi score (pos, none) (n + 1) =
          (⟨n + 1, targetMidi - getOpenMidi (n + 1)⟩,
            some (score (n + 1) (targetMidi - getOpenMidi (n + 1)))) := by
        simp only [bestStep]
        rw [if_pos hr]
      rw [hstep]
      constructor
      · intro h2
        exact Option.noConfusion h2
      · intro b hb
        have hbd : b = score (n + 1) (targetMidi - getOpenMidi (n + 1)) :=
          (Option.some.inj hb).symm
        subst hbd
        refine ⟨⟨(hmem _).mpr (Or.inr rfl), hr, rfl, rfl⟩, ?_, ?_⟩
        · intro s hs hre
          rcases (hmem s).mp hs with h3 | h3
          · exact absurd hre ((hnone rfl).2 s h3)
          · subst h3
            exact le_refl _
        · intro s hs hre _
          rcases (hmem s).mp hs with h3 | h3
          · exact absurd hre ((hnone rfl).2 s h3)
          · subst h3
            exact Nat.le_refl _
    | some best =>
      obtain ⟨⟨hm, hreb, hfret, hb⟩, hmin, htie⟩ := hsome best rfl
      have hm2 : pos.string ∈ List.range' 1 n := hm
      have hmlt : pos.string < n + 1 := by
        have h5 := (List.mem_range'_1.mp hm2).2
        omega
      by_cases hlt : score (n + 1) (targetMidi - getOpenMidi (n + 1)) < best
      · have hstep : bestStep targetMidi score (pos, some best) (n + 1) =
            (⟨n + 1, targetMidi - getOpenMidi (n + 1)⟩,
              some (score (n + 1) (targetMidi - getOpenMidi (n + 1)))) := by
          simp only [bestStep]
          rw [if_pos hr, if_pos hlt]
        rw [hstep]
        constructor
        · intro h2
          exact Option.noConfusion h2
        · intro b hb2
          have hbd : b = score (n + 1) (targetMidi - getOpenMidi (n + 1)) :=
            (Option.some.inj hb2).symm
          subst hbd
          refine ⟨⟨(hmem _).mpr (Or.inr rfl), hr, rfl, rfl⟩, ?_, ?_⟩
          · intro s hs hre
            rcases (hmem s).mp hs with h3 | h3
            · exact le_of_lt (lt_of_lt_of_le hlt (hmin s h3 hre))
            · subst h3
              exact le_refl _
          · intro s hs hre heq
            rcases (hmem s).mp hs with h3 | h3
            · exact absurd heq (ne_of_gt (lt_of_lt_of_le hlt (hmin s h3 hre)))
            · subst h3
              exact Nat.le_refl _
      · have hstep : bestStep targetMidi score (pos, some best) (n + 1) =
            (pos, some best) := by
          simp only [bestStep]
          rw [if_pos hr, if_neg hlt]
        rw [hstep]
        constructor
        · intro h2
          exact Option.noConfusion h2
        · intro b hb2
          have hbd : b = best := (Option.some.inj hb2).symm
          subst hbd
          refine ⟨⟨(hmem _).mpr (Or.inl hm), hreb, hfret, hb⟩, ?_, ?_⟩
          · intro s hs hre
            rcases (hmem s).mp hs with h3 | h3
            · exact hmin s h3 hre
            · subst h3
              exact le_of_not_lt hlt
          · intro s hs hre heq
            rcases (hmem s).mp hs with h3 | h3
            · exact htie s h3 hre heq
            · subst h3
              exact Nat.le_of_lt hmlt
  · have hstep : bestStep targetMidi score (pos, ob) (n + 1) = (pos, ob) := by
      simp only [bestStep]
      rw [if_neg hr]
    rw [hstep]
    constructor
    · intro h2
      obtain ⟨h3, h4⟩ := hnone h2
      refine ⟨h3, ?_⟩
      intro s hs
      rcases (hmem s).mp hs with h5 | h5
      · exact h4 s h5
      · subst h5
        exact hr
    · intro b hb
      obtain ⟨⟨hm, hreb, hfret, hb2⟩, hmin, htie⟩ := hsome b hb
      refine ⟨⟨(hmem _).mpr (Or.inl hm), hreb, hfret, hb2⟩, ?_, ?_⟩
      · intro s hs hre
        rcases (hmem s).mp hs with h3 | h3
        · exact hmin s h3 hre
        · subst h3
          exact absurd hre hr
      · intro s hs hre heq
        rcases (hmem s).mp hs with h3 | h3
        · exact htie s h3 hre heq
        · subst h3
          exact absurd hre hr

theorem bestSearch_inv [LinearOrder β] (targetMidi : Int) (score : Nat → Int → β) :
    SearchInv targetMidi score 6
      (stringsIdx.foldl (bestStep targetMidi score) (⟨1, 0⟩, none)) := by
  have e : stringsIdx = [1, 2, 3, 4, 5, 6] := rfl
  rw [e]
  simp only [List.foldl_cons, List.foldl_nil]
  exact searchInv_step _ _ 5 _ (searchInv_step _ _ 4 _ (searchInv_step _ _ 3 _
    (searchInv_step _ _ 2 _ (searchInv_step _ _ 1 _ (searchInv_step _ _ 0 _
      (searchInv_zero _ _))))))

theorem bestSearch_reachable [LinearOrder β] (targetMidi : Int) (score : Nat → Int → β)
    (h : ∃ s ∈ stringsIdx, Reachable targetMidi s) :
    (bestSearch targetMidi score).string ∈ stringsIdx ∧
    Reachable targetMidi (bestSearch targetMidi score).string ∧
    (bestSearch targetMidi score).fret =
      fretOn targetMidi (bestSearch targetMidi score).string ∧
    (∀ s ∈ stringsIdx, Reachable targetMidi s →
      score (bestSearch targetMidi score).string (bestSearch targetMidi score).fret ≤
        score s (fretOn targetMidi s)) ∧
    (∀ s ∈ stringsIdx, Reachable targetMidi s →
      score s (fretOn targetMidi s) =
        score (bestSearch targetMidi score).string (bestSearch targetMidi score).fret →
      (bestSearch targetMidi score).string ≤ s) := by
  obtain ⟨hnone, hsome⟩ := bestSearch_inv targetMidi score
  cases hob : (stringsIdx.foldl (bestStep targetMidi score) (⟨1, 0⟩, none)).2 with
  | none =>
    exfalso
    obtain ⟨s, hs, hre⟩ := h
    exact (hnone hob).2 s hs hre
  | some b =>
    obtain ⟨⟨hm, hre, hfret, hb⟩, hmin, htie⟩ := hsome b hob
    subst hb
    exact ⟨hm, hre, hfret, hmin, htie⟩

theorem bestSearch_unreachable [LinearOrder β] (targetMidi : Int) (score : Nat → Int → β)
    (h : ∀ s ∈ stringsIdx, ¬ Reachable targetMidi s) :
    bestSearch targetMidi score = ⟨1, 0⟩ := by
  obtain ⟨hnone, hsome⟩ := bestSearch_inv targetMidi score
  cases hob : (stringsIdx.foldl (bestStep targetMidi score) (⟨1, 0⟩, none)).2 with
  | none => exact (hnone hob).1
  | some b =>
    obtain ⟨⟨hm, hre, _, _⟩, _, _⟩ := hsome b hob
    exact absurd hre (h _ hm)

/-- Open-string pitches decrease with the string number. -/
theorem getOpenMidi_antitone : ∀ s1 ∈ stringsIdx, ∀ s2 ∈ stringsIdx,
    s1 ≤ s2 → getOpenMidi s2 ≤ getOpenMidi s1 := by decide

/-- The candidate fret grows with the string number. -/
theorem fretOn_mono (targetMidi : Int) (s1 s2 : Nat) (h1 : s1 ∈ stringsIdx)
    (h2 : s2 ∈ stringsIdx) (hle : s1 ≤ s2) :
    fretOn targetMidi s1 ≤ fretOn targetMidi s2 := by
  have := getOpenMidi_antitone s1 h1 s2 h2 hle
  unfold fretOn
  omega

theorem findBestPosition_eq (targetMidi : Int) (ref : GuitarPosition) :
    findBestPosition targetMidi ref = bestSearch targetMidi
      (fun s fret =>
        (|fret - ref.fret| + |(s : Int) - (ref.string : Int)| * 2 : Int)) := rfl

theorem findBestPositionFromDo_eq (targetMidi : Int) (doPos : GuitarPosition) :
    findBestPositionFromDo targetMidi doPos = bestSearch targetMidi
      (fun s fret => ((|fret - doPos.fret| : Int) : ℚ) * 1.5 +
        ((|(s : Int) - (doPos.string : Int)| : Int) : ℚ) * 2) := rfl

theorem getNoteMidi_openMidi (s : Nat) (f : Int) :
    getNoteMidi s f = getOpenMidi s + f := rfl

/-- C2: whenever some string can reach the target pitch, both position-search
functions return a reachable candidate (string 1..6, fret within
`[0, MAX_FRET]`, fret determined by the target pitch on that string) that
minimises the respective distance score — `1 * |fret - ref.fret| +
2 * |s - ref.string|` for `findBestPosition` and `1.5 * |fret - ref.fret| +
2 * |s - ref.string|` for `findBestPositionFromDo`, each with per-string
weight strictly above per-fret weight — and on exact score ties the returned
candidate has the lowest fret number. -/
theorem resolver_minimises (targetMidi : Int) (ref doPos : GuitarPosition)
    (h : ∃ s ∈ stringsIdx, Reachable targetMidi s) :
    ((1 : Int) < 2 ∧ (1.5 : ℚ) < 2) ∧
    (1 ≤ (findBestPosition targetMidi ref).string ∧
      (findBestPosition targetMidi ref).string ≤ 6 ∧
      Reachable targetMidi (findBestPosition targetMidi ref).string ∧
      (findBestPosition targetMidi ref).fret =
        fretOn targetMidi (findBestPosition targetMidi ref).string ∧
      (∀ s ∈ stringsIdx, Reachable targetMidi s →
        |(findBestPosition targetMidi ref).fret - ref.fret| +
            |((findBestPosition targetMidi ref).string : Int) - (ref.string : Int)| * 2 ≤
          |fretOn targetMidi s - ref.fret| + |(s : Int) - (ref.string : Int)| * 2) ∧
      (∀ s ∈ stringsIdx, Reachable targetMidi s →
        |fretOn targetMidi s - ref.fret| + |(s : Int) - (ref.string : Int)| * 2 =
          |(findBestPosition targetMidi ref).fret - ref.fret| +
            |((findBestPosition targetMidi ref).string : Int) - (ref.string : Int)| * 2 →
        (findBestPosition targetMidi ref).fret ≤ fretOn targetMidi s)) ∧
    (1 ≤ (findBestPositionFromDo targetMidi doPos).string ∧
      (findBestPositionFromDo targetMidi doPos).string ≤ 6 ∧
      Reachable targetMidi (findBestPositionFromDo targetMidi doPos).string ∧
      (findBestPositionFromDo targetMidi doPos).fret =
        fretOn targetMidi (findBestPositionFromDo targetMidi doPos).string ∧
      (∀ s ∈ stringsIdx, Reachable targetMidi s →
        ((|(findBestPositionFromDo targetMidi doPos).fret - doPos.fret| : Int) : ℚ) * 1.5 +
            ((|((findBestPositionFromDo targetMidi doPos).string : Int) -
              (doPos.string : Int)| : Int) : ℚ) * 2 ≤
          ((|fretOn targetMidi s - doPos.fret| : Int) : ℚ) * 1.5 +
            ((|(s : Int) - (doPos.string : Int)| : Int) : ℚ) * 2) ∧
      (∀ s ∈ stringsIdx, Reachable targetMidi s →
        ((|fretOn targetMidi s - doPos.fret| : Int) : ℚ) * 1.5 +
            ((|(s : Int) - (doPos.string : Int)| : Int) : ℚ) * 2 =
          ((|(findBestPositionFromDo targetMidi doPos).fret - doPos.fret| : Int) : ℚ) * 1.5 +
            ((|((findBestPositionFromDo targetMidi doPos).string : Int) -
              (doPos.string : Int)| : Int) : ℚ) * 2 →
        (findBestPositionFromDo targetMidi doPos).fret ≤ fretOn targetMidi s)) := by
  rw [findBestPosition_eq targetMidi ref, findBestPositionFromDo_eq targetMidi doPos]
  obtain ⟨hm1, hre1, hf1, hmin1, htie1⟩ := bestSearch_reachable targetMidi
    (fun s fret =>
      (|fret - ref.fret| + |(s : Int) - (ref.string : Int)| * 2 : Int)) h
  obtain ⟨hm2, hre2, hf2, hmin2, htie2⟩ := bestSearch_reachable targetMidi
    (fun s fret => ((|fret - doPos.fret| : Int) : ℚ) * 1.5 +
      ((|(s : Int) - (doPos.string : Int)| : Int) : ℚ) * 2) h
  have hb1 := List.mem_range'_1.mp hm1
  have hb2 := List.mem_range'_1.mp hm2
  refine ⟨⟨by norm_num, by norm_num⟩,
    ⟨hb1.1, by omega, hre1, hf1, hmin1, ?_⟩,
    ⟨hb2.1, by omega, hre2, hf2, hmin2, ?_⟩⟩
  · intro s hs hre heq
    have hle := htie1 s hs hre heq
    rw [hf1]
    exact fretOn_mono targetMidi _ s hm1 hs hle
  · intro s hs hre heq
    have hle := htie2 s hs hre heq
    rw [hf2]
    exact fretOn_mono targetMidi _ s hm2 hs hle

/-- Witness for C2 at `targetMidi = 60` (middle C) with reference position
`{string 5, fret 3}`. -/
theorem resolver_minimises_witness :
    (∃ s ∈ stringsIdx, Reachable 60 s) ∧
    1 ≤ (findBestPosition 60 ⟨5, 3⟩).string ∧
    (findBestPosition 60 ⟨5, 3⟩).string ≤ 6 ∧
    Reachable 60 (findBestPosition 60 ⟨5, 3⟩).string ∧
    1 ≤ (findBestPositionFromDo 60 ⟨5, 3⟩).string ∧
    (findBestPositionFromDo 60 ⟨5, 3⟩).string ≤ 6 ∧
    Reachable 60 (findBestPositionFromDo 60 ⟨5, 3⟩).string := by
  have hx : (∃ s ∈ stringsIdx, Reachable 60 s) := by decide
  have H := resolver_minimises 60 ⟨5, 3⟩ ⟨5, 3⟩ hx
  exact ⟨hx, H.2.1.1, H.2.1.2.1, H.2.1.2.2.1, H.2.2.1, H.2.2.2.1, H.2.2.2.2.1⟩

/-- C3 counterexample: at the unreachable target pitch 1000 both search
functions silently return the default position `{string 1, fret 0}` (whose
pitch is not the target) instead of surfacing a failure. -/
theorem resolver_unreachable_counterexample :
    (∀ s ∈ stringsIdx, ¬ Reachable 1000 s) ∧
    findBestPosition 1000 ⟨5, 3⟩ = ⟨1, 0⟩ ∧
    findBestPositionFromDo 1000 ⟨5, 3⟩ = ⟨1, 0⟩ ∧
    getNoteMidi 1 0 ≠ 1000 := by decide

/-- Helper shared by the unreachable-target results: with no reachable string
both search functions return the untouched initial position, whose pitch (64)
cannot be the unreachable target. -/
theorem unreachable_silent_default (targetMidi : Int) (ref doPos : GuitarPosition)
    (h : ∀ s ∈ stringsIdx, ¬ Reachable targetMidi s) :
    findBestPosition targetMidi ref = ⟨1, 0⟩ ∧
    findBestPositionFromDo targetMidi doPos = ⟨1, 0⟩ ∧
    getNoteMidi 1 0 ≠ targetMidi := by
  rw [findBestPosition_eq targetMidi ref, findBestPositionFromDo_eq targetMidi doPos]
  refine ⟨bestSearch_unreachable _ _ h, bestSearch_unreachable _ _ h, ?_⟩
  intro he
  have he2 : (64 : Int) = targetMidi := he
  apply h 1 (by decide)
  rw [← he2]
  decide

/-- C3 (amended): when no string can reach the target pitch within
`[0, MAX_FRET]`, both position-search functions silently return the untouched
default position `{string 1, fret 0}` — no error is raised, and the default's
pitch never equals the unreachable target. -/
theorem resolver_unreachable_default (targetMidi : Int) (ref doPos : GuitarPosition)
    (h : ∀ s ∈ stringsIdx, ¬ Reachable targetMidi s) :
    findBestPosition targetMidi ref = ⟨1, 0⟩ ∧
    findBestPositionFromDo targetMidi doPos = ⟨1, 0⟩ ∧
    getNoteMidi 1 0 ≠ targetMidi :=
  unreachable_silent_default targetMidi ref doPos h

/-- Witness for the amended C3 at target pitch 1000. -/
theorem resolver_unreachable_default_witness :
    (∀ s ∈ stringsIdx, ¬ Reachable 1000 s) ∧
    (findBestPosition 1000 ⟨5, 3⟩ = ⟨1, 0⟩ ∧
      findBestPositionFromDo 1000 ⟨2, 7⟩ = ⟨1, 0⟩ ∧
      getNoteMidi 1 0 ≠ 1000) :=
  ⟨by decide, resolver_unreachable_default 1000 ⟨5, 3⟩ ⟨2, 7⟩ (by decide)⟩

/-- C10: when the target pitch is reachable, both position-search functions
return a position whose own pitch (`getNoteMidi`) is exactly the target, and
the `MappedNote` built by `mapByPositionImpl` therefore has mutually
consistent position, pitch and note-name fields; when no string is reachable
they silently return the default `{string 1, fret 0}`, whose pitch need not
equal the target. -/
theorem resolver_pitch_consistency (targetMidi : Int) (ref doPos : GuitarPosition)
    (solfege : Nat) :
    ((∃ s ∈ stringsIdx, Reachable targetMidi s) →
      getNoteMidi (findBestPosition targetMidi ref).string
          (findBestPosition targetMidi ref).fret = targetMidi ∧
      getNoteMidi (findBestPositionFromDo targetMidi doPos).string
          (findBestPositionFromDo targetMidi doPos).fret = targetMidi) ∧
    ((∀ s ∈ stringsIdx, ¬ Reachable targetMidi s) →
      findBestPosition targetMidi ref = ⟨1, 0⟩ ∧
      findBestPositionFromDo targetMidi doPos = ⟨1, 0⟩ ∧
      getNoteMidi 1 0 ≠ targetMidi) ∧
    ((∃ s ∈ stringsIdx, Reachable
        (getNoteMidi doPos.string doPos.fret +
          MAJOR_SCALE_SEMITONES.getD (solfege - 1) 0) s) →
      getNoteMidi (mapByPositionImpl solfege doPos).position.string
          (mapByPositionImpl solfege doPos).position.fret =
        getNoteMidi doPos.string doPos.fret +
          MAJOR_SCALE_SEMITONES.getD (solfege - 1) 0 ∧
      (mapByPositionImpl solfege doPos).pitch =
        midiToTonePitch (getNoteMidi doPos.string doPos.fret +
          MAJOR_SCALE_SEMITONES.getD (solfege - 1) 0) ∧
      (mapByPositionImpl solfege doPos).noteName =
        midiToNoteName (getNoteMidi doPos.string doPos.fret +
          MAJOR_SCALE_SEMITONES.getD (solfege - 1) 0)) := by
  have key : ∀ (t : Int) (q1 q2 : GuitarPosition), (∃ s ∈ stringsIdx, Reachable t s) →
      getNoteMidi (findBestPosition t q1).string (findBestPosition t q1).fret = t ∧
      getNoteMidi (findBestPositionFromDo t q2).string
        (findBestPositionFromDo t q2).fret = t := by
    intro t q1 q2 hx
    constructor
    · rw [findBestPosition_eq t q1]
      obtain ⟨hm1, hre1, hf1, _, _⟩ := bestSearch_reachable t
        (fun s fret => (|fret - q1.fret| + |(s : Int) - (q1.string : Int)| * 2 : Int)) hx
      rw [getNoteMidi_openMidi, hf1]
      unfold fretOn
      omega
    · rw [findBestPositionFromDo_eq t q2]
      obtain ⟨hm2, hre2, hf2, _, _⟩ := bestSearch_reachable t
        (fun s fret => ((|fret - q2.fret| : Int) : ℚ) * 1.5 +
          ((|(s : Int) - (q2.string : Int)| : Int) : ℚ) * 2) hx
      rw [getNoteMidi_openMidi, hf2]
      unfold fretOn
      omega
  refine ⟨key targetMidi ref doPos, unreachable_silent_default targetMidi ref doPos, ?_⟩
  intro hx
  refine ⟨(key _ doPos doPos hx).2, rfl, rfl⟩

/-- Witness for C10 at target pitch 62 and do-position `{string 5, fret 3}`. -/
theorem resolver_pitch_consistency_witness :
    (∃ s ∈ stringsIdx, Reachable 62 s) ∧
    getNoteMidi (findBestPosition 62 ⟨5, 3⟩).string
      (findBestPosition 62 ⟨5, 3⟩).fret = 62 ∧
    getNoteMidi (findBestPositionFromDo 62 ⟨5, 3⟩).string
      (findBestPositionFromDo 62 ⟨5, 3⟩).fret = 62 := by
  have hx : (∃ s ∈ stringsIdx, Reachable 62 s) := by decide
  have H := (resolver_pitch_consistency 62 ⟨5, 3⟩ ⟨5, 3⟩ 1).1 hx
  exact ⟨hx, H.1, H.2⟩

/-! ### The mapping cache is transparent and idempotent -/

set_option maxRecDepth 10000 in
/-- Function `parseKey` inverts `keyOf` on every valid call. -/
theorem parseKey_keyOf : ∀ sd ∈ allCalls, parseKey (keyOf sd.1 sd.2) = some sd := by
  decide

/-- Distinct valid calls never share a cache key. -/
theorem keyOf_inj (a b : Nat × DoSpec) (ha : a ∈ allCalls) (hb : b ∈ allCalls)
    (h : keyOf a.1 a.2 = keyOf b.1 b.2) : a = b := by
  have h1 := parseKey_keyOf a ha
  have h2 := parseKey_keyOf b hb
  rw [h] at h1
  rw [h1] at h2
  exact Option.some.inj h2

theorem lookup_mem [BEq α] [LawfulBEq α] :
    ∀ (l : List (α × γ)) (k : α) (v : γ), l.lookup k = some v → (k, v) ∈ l
  | [], _, _, h => by simp [List.lookup] at h
  | (a, b) :: t, k, v, h => by
    rw [List.lookup] at h
    by_cases he : k == a
    · rw [he] at h
      have hk : k = a := eq_of_beq he
      have hv : b = v := Option.some.inj h
      subst hk
      subst hv
      exact List.mem_cons_self _ _
    · rw [Bool.not_eq_true] at he
      rw [he] at h
      exact List.mem_cons_of_mem _ (lookup_mem t k v h)

theorem lookup_cons_self [BEq α] [LawfulBEq α] (k : α) (v : γ) (t : List (α × γ)) :
    ((k, v) :: t).lookup k = some v := by
  rw [List.lookup]
  simp

/-- Function `getMapped` in terms of a lookup on the call's key. -/
theorem getMapped_eq (c : Cache) (solfege : Nat) (d : DoSpec) :
    getMapped c solfege d =
      match c.lookup (keyOf solfege d) with
      | some v => (v, c)
      | none => (implOf solfege d, (keyOf solfege d, implOf solfege d) :: c) := by
  cases d <;> rfl

/-- C8: on a well-formed cache, the cached accessors are transparent (the
returned `MappedNote` is exactly what the uncached `mapByPitchImpl` /
`mapByPositionImpl` computation produces for that argument pair) and
idempotent (a second call with identical arguments returns a value-equal
result), and cache well-formedness is preserved. -/
theorem cache_transparent (c : Cache) (hWF : CacheWF c) (solfege : Nat) (d : DoSpec)
    (hv : (solfege, d) ∈ allCalls) :
    ∀ r1 c1, getMapped c solfege d = (r1, c1) →
      r1 = implOf solfege d ∧ CacheWF c1 ∧
      ∀ r2 c2, getMapped c1 solfege d = (r2, c2) → r2 = r1 := by
  have hG := getMapped_eq c solfege d
  intro r1 c1 h1
  cases hl : c.lookup (keyOf solfege d) with
  | some v =>
    rw [hG, hl] at h1
    have h1x : (v, c) = (r1, c1) := h1
    injection h1x with hr hc
    subst hr
    subst hc
    have hmem := lookup_mem c (keyOf solfege d) v hl
    obtain ⟨sd, hsd, hk, hval⟩ := hWF _ _ hmem
    have he : sd = (solfege, d) := keyOf_inj sd (solfege, d) hsd hv hk.symm
    subst he
    refine ⟨hval, hWF, ?_⟩
    intro r2 c2 h2
    rw [hG, hl] at h2
    have h2x : (v, c) = (r2, c2) := h2
    injection h2x with h3 _
    exact h3.symm
  | none =>
    rw [hG, hl] at h1
    have h1x : (implOf solfege d, (keyOf solfege d, implOf solfege d) :: c) =
        (r1, c1) := h1
    injection h1x with hr hc
    subst hr
    subst hc
    refine ⟨rfl, ?_, ?_⟩
    · intro k v hm
      rcases List.mem_cons.mp hm with hm | hm
      · injection hm with hk hv2
        exact ⟨(solfege, d), hv, hk, hv2⟩
      · exact hWF k v hm
    · intro r2 c2 h2
      rw [getMapped_eq ((keyOf solfege d, implOf solfege d) :: c) solfege d,
        lookup_cons_self] at h2
      have h2x : (implOf solfege d, (keyOf solfege d, implOf solfege d) :: c) =
          (r2, c2) := h2
      injection h2x with h3 _
      exact h3.symm

/-- Witness for C8: the empty cache, digit 1, pitch-anchored do at C. -/
theorem cache_transparent_witness :
    CacheWF [] ∧ ((1 : Nat), DoSpec.byPitch "C") ∈ allCalls ∧
    (∀ r1 c1, getMapped [] 1 (DoSpec.byPitch "C") = (r1, c1) →
      r1 = implOf 1 (DoSpec.byPitch "C") ∧ CacheWF c1 ∧
      ∀ r2 c2, getMapped c1 1 (DoSpec.byPitch "C") = (r2, c2) → r2 = r1) := by
  have h0 : CacheWF [] := fun k v h => absurd h (List.not_mem_nil _)
  have h1 : ((1 : Nat), DoSpec.byPitch "C") ∈ allCalls := by decide
  exact ⟨h0, h1, cache_transparent [] h0 1 (DoSpec.byPitch "C") h1⟩

/-! ### The fretboard tap handler -/

theorem jsMod_eq_emod (a b : Int) (ha : 0 ≤ a) (hb : 0 ≤ b) : jsMod a b = a % b :=
  Int.tmod_eq_emod ha hb

/-- The digit produced by the tap handler, as a function of the normalised
semitone distance `s0` from do. -/
theorem tapDigit_cases : ∀ s0 : Int, 0 ≤ s0 → s0 < 12 →
    (∀ k : Nat, 1 ≤ k → k ≤ 7 →
      ((if 0 ≤ jsIndexOf MAJOR_SCALE_SEMITONES s0 then
          (jsIndexOf MAJOR_SCALE_SEMITONES s0 + 1).toNat else 0) = k ↔
        s0 = MAJOR_SCALE_SEMITONES.getD (k - 1) 0)) ∧
    (((if 0 ≤ jsIndexOf MAJOR_SCALE_SEMITONES s0 then
        (jsIndexOf MAJOR_SCALE_SEMITONES s0 + 1).toNat else 0) = 0) ↔
      s0 ∉ MAJOR_SCALE_SEMITONES) := by
  intro s0 h1 h2
  constructor
  · intro k hk1 hk7
    interval_cases s0 <;> interval_cases k <;> decide
  · interval_cases s0 <;> decide

/-- Open-string pitches lie between 40 and 64. -/
theorem openMidi_bounds : ∀ s : Nat, 1 ≤ s → s ≤ 6 →
    40 ≤ STANDARD_TUNING_MIDI.getD (s - 1) 0 ∧
      STANDARD_TUNING_MIDI.getD (s - 1) 0 ≤ 64 := by
  intro s h1 h2
  interval_cases s <;> exact ⟨by decide, by decide⟩

/-- C9: for a tapped fretboard position and the active do settings, the tap
result's digit is `k ∈ 1..7` exactly when the tapped pitch minus the do pitch,
mod 12, equals the major-scale offset of degree `k`, and it is the sentinel 0
exactly when that difference is not a major-scale offset; the result's
position, pitch and note name are those of the tapped position itself. -/
theorem handlePositionClick_spec (doMode doNoteName : String)
    (doPosition position : GuitarPosition)
    (hp1 : 1 ≤ position.string) (hp2 : position.string ≤ 6)
    (hp3 : 0 ≤ position.fret) (hp4 : position.fret ≤ 14)
    (hd1 : 1 ≤ doPosition.string) (hd2 : doPosition.string ≤ 6)
    (hd3 : 0 ≤ doPosition.fret) (hd4 : doPosition.fret ≤ 14)
    (hname : doNoteName ∈ ALL_NOTE_NAMES)
    (hmode : doMode = "pitch" ∨ doMode = "position") :
    (∀ k, 1 ≤ k → k ≤ 7 →
      ((handlePositionClick doMode doNoteName doPosition position).solfege = k ↔
        (getNoteMidi position.string position.fret -
          (if doMode = "pitch" then noteNameToIndex doNoteName
           else getNoteMidi doPosition.string doPosition.fret)) % 12 =
          MAJOR_SCALE_SEMITONES.getD (k - 1) 0)) ∧
    ((handlePositionClick doMode doNoteName doPosition position).solfege = 0 ↔
      (getNoteMidi position.string position.fret -
        (if doMode = "pitch" then noteNameToIndex doNoteName
         else getNoteMidi doPosition.string doPosition.fret)) % 12 ∉
        MAJOR_SCALE_SEMITONES) ∧
    (handlePositionClick doMode doNoteName doPosition position).position = position ∧
    (handlePositionClick doMode doNoteName doPosition position).pitch =
      midiToTonePitch (getNoteMidi position.string position.fret) ∧
    (handlePositionClick doMode doNoteName doPosition position).noteName =
      midiToNoteName (getNoteMidi position.string position.fret) := by
  have hopenP := openMidi_bounds position.string hp1 hp2
  have hmidi : 40 ≤ getNoteMidi position.string position.fret ∧
      getNoteMidi position.string position.fret ≤ 78 := by
    unfold getNoteMidi
    omega
  rcases hmode with hm | hm
  · subst hm
    have hidx := (show ∀ n ∈ ALL_NOTE_NAMES,
        0 ≤ noteNameToIndex n ∧ noteNameToIndex n < 12 by decide) doNoteName hname
    have e1 : jsMod (getNoteMidi position.string position.fret) 12 =
        getNoteMidi position.string position.fret % 12 :=
      jsMod_eq_emod _ _ (by omega) (by norm_num)
    have e2 : jsMod (getNoteMidi position.string position.fret % 12 -
          noteNameToIndex doNoteName + 12) 12 =
        (getNoteMidi position.string position.fret % 12 -
          noteNameToIndex doNoteName + 12) % 12 :=
      jsMod_eq_emod _ _ (by omega) (by norm_num)
    have hsem : jsMod (jsMod (getNoteMidi position.string position.fret) 12 -
          noteNameToIndex doNoteName + 12) 12 =
        (getNoteMidi position.string position.fret -
          noteNameToIndex doNoteName) % 12 := by
      rw [e1, e2]
      omega
    have hsolf : (handlePositionClick "pitch" doNoteName doPosition position).solfege =
        (if 0 ≤ jsIndexOf MAJOR_SCALE_SEMITONES
            (jsMod (jsMod (getNoteMidi position.string position.fret) 12 -
              noteNameToIndex doNoteName + 12) 12) then
          (jsIndexOf MAJOR_SCALE_SEMITONES
            (jsMod (jsMod (getNoteMidi position.string position.fret) 12 -
              noteNameToIndex doNoteName + 12) 12) + 1).toNat
        else 0) := rfl
    rw [if_pos (rfl : ("pitch" : String) = "pitch"), hsolf, hsem]
    obtain ⟨k1, k2⟩ := tapDigit_cases
      ((getNoteMidi position.string position.fret - noteNameToIndex doNoteName) % 12)
      (by omega) (by omega)
    exact ⟨k1, k2, rfl, rfl, rfl⟩
  · subst hm
    have hopenD := openMidi_bounds doPosition.string hd1 hd2
    have hdo : 40 ≤ getNoteMidi doPosition.string doPosition.fret ∧
        getNoteMidi doPosition.string doPosition.fret ≤ 78 := by
      unfold getNoteMidi
      omega
    have e0 : jsMod (getNoteMidi doPosition.string doPosition.fret) 12 =
        getNoteMidi doPosition.string doPosition.fret % 12 :=
      jsMod_eq_emod _ _ (by omega) (by norm_num)
    have e1 : jsMod (getNoteMidi position.string position.fret) 12 =
        getNoteMidi position.string position.fret % 12 :=
      jsMod_eq_emod _ _ (by omega) (by norm_num)
    have e2 : jsMod (getNoteMidi position.string position.fret % 12 -
          getNoteMidi doPosition.string doPosition.fret % 12 + 12) 12 =
        (getNoteMidi position.string position.fret % 12 -
          getNoteMidi doPosition.string doPosition.fret % 12 + 12) % 12 :=
      jsMod_eq_emod _ _ (by omega) (by norm_num)
    have hsem : jsMod (jsMod (getNoteMidi position.string position.fret) 12 -
          jsMod (getNoteMidi doPosition.string doPosition.fret) 12 + 12) 12 =
        (getNoteMidi position.string position.fret -
          getNoteMidi doPosition.string doPosition.fret) % 12 := by
      rw [e0, e1, e2]
      omega
    have hsolf : (handlePositionClick "position" doNoteName doPosition position).solfege =
        (if 0 ≤ jsIndexOf MAJOR_SCALE_SEMITONES
            (jsMod (jsMod (getNoteMidi position.string position.fret) 12 -
              jsMod (getNoteMidi doPosition.string doPosition.fret) 12 + 12) 12) then
          (jsIndexOf MAJOR_SCALE_SEMITONES
            (jsMod (jsMod (getNoteMidi position.string position.fret) 12 -
              jsMod (getNoteMidi doPosition.string doPosition.fret) 12 + 12) 12) +
              1).toNat
        else 0) := rfl
    rw [if_neg (by decide : ¬ ("position" : String) = "pitch"), hsolf, hsem]
    obtain ⟨k1, k2⟩ := tapDigit_cases
      ((getNoteMidi position.string position.fret -
        getNoteMidi doPosition.string doPosition.fret) % 12)
      (by omega) (by omega)
    exact ⟨k1, k2, rfl, rfl, rfl⟩

/-- Witness for C9: tapping string 2, fret 1 (C4) with do = C names digit 1. -/
theorem handlePositionClick_spec_witness :
    (1 ≤ (⟨2, 1⟩ : GuitarPosition).string ∧ ("C" : String) ∈ ALL_NOTE_NAMES) ∧
    (handlePositionClick "pitch" "C" ⟨5, 3⟩ ⟨2, 1⟩).solfege = 1 ∧
    (handlePositionClick "pitch" "C" ⟨5, 3⟩ ⟨2, 1⟩).position = (⟨2, 1⟩ : GuitarPosition) := by
  have H := handlePositionClick_spec "pitch" "C" ⟨5, 3⟩ ⟨2, 1⟩
    (by decide) (by decide) (by decide) (by decide)
    (by decide) (by decide) (by decide) (by decide)
    (by decide) (Or.inl rfl)
  exact ⟨⟨by decide, by decide⟩, (H.1 1 (by decide) (by decide)).mpr (by decide),
    H.2.2.1⟩

/-! ### Playback scheduler basics -/

theorem clearAdv_spec (st : SchedState) :
    (clearAdvanceTimer st).sequence = st.sequence ∧
    (clearAdvanceTimer st).mappedNotes = st.mappedNotes ∧
    (clearAdvanceTimer st).playbackState = st.playbackState ∧
    (clearAdvanceTimer st).currentIndex = st.currentIndex ∧
    (clearAdvanceTimer st).currentNote = st.currentNote ∧
    (clearAdvanceTimer st).prepTimers = st.prepTimers ∧
    (clearAdvanceTimer st).prepareRef = st.prepareRef ∧
    (clearAdvanceTimer st).triggered = st.triggered ∧
    (clearAdvanceTimer st).nextId = st.nextId := by
  cases h : st.timerRef <;> simp [clearAdvanceTimer, h]

theorem clearPrep_spec (st : SchedState) :
    (clearPrepareTimer st).sequence = st.sequence ∧
    (clearPrepareTimer st).mappedNotes = st.mappedNotes ∧
    (clearPrepareTimer st).playbackState = st.playbackState ∧
    (clearPrepareTimer st).currentIndex = st.currentIndex ∧
    (clearPrepareTimer st).currentNote = st.currentNote ∧
    (clearPrepareTimer st).advTimers = st.advTimers ∧
    (clearPrepareTimer st).timerRef = st.timerRef ∧
    (clearPrepareTimer st).triggered = st.triggered ∧
    (clearPrepareTimer st).nextId = st.nextId ∧
    (clearPrepareTimer st).prepareRef = none := by
  cases h : st.prepareRef <;> simp [clearPrepareTimer, h]

/-- The completed-sequence branch of `playNoteAtIndex`. -/
theorem playNoteAtIndex_finish (s : Settings) (st : SchedState) (index : Int)
    (hge : (st.sequence.length : Int) ≤ index) :
    playNoteAtIndex s st index =
      { st with
        playbackState := .idle,
        currentIndex := -1,
        currentNote := none } := by
  unfold playNoteAtIndex
  rw [if_pos hge]

/-- The in-range, still-playing branch of `playNoteAtIndex`. -/
theorem playNoteAtIndex_playing (s : Settings) (st : SchedState) (index : Int)
    (h0 : 0 ≤ index) (hlt : index < (st.sequence.length : Int))
    (hmap : st.mappedNotes.length = st.sequence.length)
    (hp : st.playbackState = .playing) :
    ∃ m, st.mappedNotes[index.toNat]? = some m ∧
      playNoteAtIndex s st index =
        { st with
          currentIndex := index,
          currentNote := some m,
          triggered := st.triggered ++ [index],
          advTimers := st.advTimers ++ [⟨st.nextId, (60 / s.bpm) * 1000, index + 1⟩],
          timerRef := some st.nextId,
          nextId := st.nextId + 1 } := by
  have hidx : index.toNat < st.mappedNotes.length := by omega
  refine ⟨st.mappedNotes[index.toNat], List.getElem?_eq_getElem hidx, ?_⟩
  unfold playNoteAtIndex jsGetElem
  rw [if_neg (not_le.mpr hlt), if_neg (not_lt.mpr h0), List.getElem?_eq_getElem hidx]
  dsimp only
  rw [hp]
  rw [if_pos rfl]

/-- The in-range, not-playing branch of `playNoteAtIndex` (no timer is
scheduled). -/
theorem playNoteAtIndex_notPlaying (s : Settings) (st : SchedState) (index : Int)
    (h0 : 0 ≤ index) (hlt : index < (st.sequence.length : Int))
    (hmap : st.mappedNotes.length = st.sequence.length)
    (hp : ¬ st.playbackState = .playing) :
    ∃ m, st.mappedNotes[index.toNat]? = some m ∧
      playNoteAtIndex s st index =
        { st with
          currentIndex := index,
          currentNote := some m,
          triggered := st.triggered ++ [index] } := by
  have hidx : index.toNat < st.mappedNotes.length := by omega
  refine ⟨st.mappedNotes[index.toNat], List.getElem?_eq_getElem hidx, ?_⟩
  unfold playNoteAtIndex jsGetElem
  rw [if_neg (not_le.mpr hlt), if_neg (not_lt.mpr h0), List.getElem?_eq_getElem hidx]
  dsimp only
  rw [if_neg hp]

/-- C4: in the advance step, the inter-note delay handed to the timer is
`(60 / bpm) * 1000`, which equals exactly `60000 / bpm` milliseconds; and when
the next index reaches past the sequence the scheduler transitions to Idle and
clears the cursor without scheduling another note (no `stop()` involved). -/
theorem advance_step_spec (s : Settings) (st : SchedState) (index : Int)
    (hplay : st.playbackState = .playing)
    (hmap : st.mappedNotes.length = st.sequence.length) :
    ((st.sequence.length : Int) ≤ index →
      (playNoteAtIndex s st index).playbackState = .idle ∧
      (playNoteAtIndex s st index).currentIndex = -1 ∧
      (playNoteAtIndex s st index).currentNote = none ∧
      (playNoteAtIndex s st index).advTimers = st.advTimers ∧
      (playNoteAtIndex s st index).prepTimers = st.prepTimers ∧
      (playNoteAtIndex s st index).triggered = st.triggered) ∧
    (0 ≤ index → index < (st.sequence.length : Int) →
      (playNoteAtIndex s st index).advTimers =
        st.advTimers ++ [⟨st.nextId, 60000 / s.bpm, index + 1⟩]) ∧
    (60 / s.bpm) * 1000 = 60000 / s.bpm := by
  have hq : (60 / s.bpm) * 1000 = 60000 / s.bpm := by
    rw [div_mul_eq_mul_div]
    norm_num
  refine ⟨?_, ?_, hq⟩
  · intro hge
    rw [playNoteAtIndex_finish s st index hge]
    exact ⟨rfl, rfl, rfl, rfl, rfl, rfl⟩
  · intro h0 hlt
    obtain ⟨m, _, hstep⟩ := playNoteAtIndex_playing s st index h0 hlt hmap hplay
    rw [hstep, ← hq]

/-- Witness for C4 on the concrete state reached by `generate` then `play`
(no pre-roll), at bpm 90. -/
theorem advance_step_spec_witness :
    (play ⟨"pitch", "C", ⟨5, 3⟩, 90, 7, 0⟩
        (generate ⟨"pitch", "C", ⟨5, 3⟩, 90, 7, 0⟩ (fun k => k) (fun _ => 0)
          initialSchedState)).playbackState = .playing ∧
    ((7 : Int) ≤ 7 →
      (playNoteAtIndex ⟨"pitch", "C", ⟨5, 3⟩, 90, 7, 0⟩
        (play ⟨"pitch", "C", ⟨5, 3⟩, 90, 7, 0⟩
          (generate ⟨"pitch", "C", ⟨5, 3⟩, 90, 7, 0⟩ (fun k => k) (fun _ => 0)
            initialSchedState)) 7).playbackState = .idle) ∧
    (60 / (⟨"pitch", "C", ⟨5, 3⟩, 90, 7, 0⟩ : Settings).bpm) * 1000 =
      60000 / (⟨"pitch", "C", ⟨5, 3⟩, 90, 7, 0⟩ : Settings).bpm := by
  have hplay : (play ⟨"pitch", "C", ⟨5, 3⟩, 90, 7, 0⟩
      (generate ⟨"pitch", "C", ⟨5, 3⟩, 90, 7, 0⟩ (fun k => k) (fun _ => 0)
        initialSchedState)).playbackState = .playing := by decide
  have hmap : (play ⟨"pitch", "C", ⟨5, 3⟩, 90, 7, 0⟩
      (generate ⟨"pitch", "C", ⟨5, 3⟩, 90, 7, 0⟩ (fun k => k) (fun _ => 0)
        initialSchedState)).mappedNotes.length =
      (play ⟨"pitch", "C", ⟨5, 3⟩, 90, 7, 0⟩
        (generate ⟨"pitch", "C", ⟨5, 3⟩, 90, 7, 0⟩ (fun k => k) (fun _ => 0)
          initialSchedState)).sequence.length := by decide
  have H := advance_step_spec ⟨"pitch", "C", ⟨5, 3⟩, 90, 7, 0⟩
    (play ⟨"pitch", "C", ⟨5, 3⟩, 90, 7, 0⟩
      (generate ⟨"pitch", "C", ⟨5, 3⟩, 90, 7, 0⟩ (fun k => k) (fun _ => 0)
        initialSchedState)) 7 hplay hmap
  refine ⟨hplay, ?_, H.2.2⟩
  intro h7
  exact (H.1 (by decide)).1

/-- Fields preserved by the `play`/`playFromIndex` timer-clearing prologue. -/
theorem clears_fields (st : SchedState) :
    (clearPrepareTimer (clearAdvanceTimer st)).sequence = st.sequence ∧
    (clearPrepareTimer (clearAdvanceTimer st)).mappedNotes = st.mappedNotes ∧
    (clearPrepareTimer (clearAdvanceTimer st)).currentIndex = st.currentIndex ∧
    (clearPrepareTimer (clearAdvanceTimer st)).currentNote = st.currentNote ∧
    (clearPrepareTimer (clearAdvanceTimer st)).triggered = st.triggered ∧
    (clearPrepareTimer (clearAdvanceTimer st)).nextId = st.nextId ∧
    (clearPrepareTimer (clearAdvanceTimer st)).prepareRef = none ∧
    (clearPrepareTimer (clearAdvanceTimer st)).advTimers =
      (clearAdvanceTimer st).advTimers := by
  obtain ⟨a1, a2, a3, a4, a5, a6, a7, a8, a9⟩ := clearAdv_spec st
  obtain ⟨p1, p2, p3, p4, p5, p6, p7, p8, p9, p10⟩ :=
    clearPrep_spec (clearAdvanceTimer st)
  exact ⟨p1.trans a1, p2.trans a2, p4.trans a4, p5.trans a5, p8.trans a8,
    p9.trans a9, p10, p6⟩

/-- Function `play` with a positive pre-roll delay: schedule the pre-roll only. -/
theorem play_preroll (s : Settings) (st : SchedState)
    (hne : ¬ st.sequence = []) (hD : 0 < s.prepareDelayMs) :
    play s st =
      { clearPrepareTimer (clearAdvanceTimer st) with
        playbackState := .playing,
        prepTimers := (clearPrepareTimer (clearAdvanceTimer st)).prepTimers ++
          [⟨(clearPrepareTimer (clearAdvanceTimer st)).nextId, s.prepareDelayMs, 0⟩],
        prepareRef := some (clearPrepareTimer (clearAdvanceTimer st)).nextId,
        nextId := (clearPrepareTimer (clearAdvanceTimer st)).nextId + 1 } := by
  unfold play
  rw [if_neg hne]
  dsimp only
  rw [if_pos hD]

/-- Function `play` with no pre-roll delay: play index 0 immediately. -/
theorem play_immediate (s : Settings) (st : SchedState)
    (hne : ¬ st.sequence = []) (hD : ¬ 0 < s.prepareDelayMs) :
    play s st = playNoteAtIndex s
      { clearPrepareTimer (clearAdvanceTimer st) with playbackState := .playing }
      0 := by
  unfold play
  rw [if_neg hne]
  dsimp only
  rw [if_neg hD]

/-- Function `playFromIndex` on a valid index plays it immediately after the clears. -/
theorem playFromIndex_eq (s : Settings) (st : SchedState) (i : Int)
    (hne : ¬ st.sequence = []) (h0 : 0 ≤ i) (hlt : i < (st.sequence.length : Int)) :
    playFromIndex s st i = playNoteAtIndex s
      { clearPrepareTimer (clearAdvanceTimer st) with playbackState := .playing }
      i := by
  unfold playFromIndex
  rw [if_neg hne, if_neg (by omega : ¬ (i < 0 ∨ (st.sequence.length : Int) ≤ i))]

/-- Function `resume` with a next note available plays it immediately. -/
theorem resume_eq (s : Settings) (st : SchedState)
    (hlt : st.currentIndex + 1 < (st.sequence.length : Int)) :
    resume s st = playNoteAtIndex s { st with playbackState := .playing }
      (st.currentIndex + 1) := by
  unfold resume
  dsimp only
  rw [if_pos hlt]

/-- C5: with a configured pre-roll delay `D > 0`, `play()` transitions to
Playing immediately but triggers no note and leaves the cursor untouched,
scheduling only the pre-roll timer for index 0 with delay `D`; the pre-roll
applies only when starting from the beginning: `playFromIndex` cancels any
pending pre-roll timer and triggers its note immediately, and `resume`
triggers the note after the cursor immediately without consulting the
pre-roll. -/
theorem preroll_spec (s : Settings) (st : SchedState)
    (hne : ¬ st.sequence = []) (hD : 0 < s.prepareDelayMs)
    (hmap : st.mappedNotes.length = st.sequence.length) :
    ((play s st).playbackState = .playing ∧
      (play s st).triggered = st.triggered ∧
      (play s st).currentIndex = st.currentIndex ∧
      (play s st).currentNote = st.currentNote ∧
      (play s st).prepareRef = some st.nextId ∧
      (play s st).prepTimers =
        (clearPrepareTimer (clearAdvanceTimer st)).prepTimers ++
          [⟨st.nextId, s.prepareDelayMs, 0⟩] ∧
      (play s st).advTimers = (clearAdvanceTimer st).advTimers) ∧
    (∀ i : Int, 0 ≤ i → i < (st.sequence.length : Int) →
      (playFromIndex s st i).playbackState = .playing ∧
      (playFromIndex s st i).triggered = st.triggered ++ [i] ∧
      (playFromIndex s st i).currentIndex = i ∧
      (playFromIndex s st i).prepareRef = none ∧
      (playFromIndex s st i).prepTimers =
        (clearPrepareTimer (clearAdvanceTimer st)).prepTimers) ∧
    (0 ≤ st.currentIndex + 1 → st.currentIndex + 1 < (st.sequence.length : Int) →
      (resume s st).playbackState = .playing ∧
      (resume s st).triggered = st.triggered ++ [st.currentIndex + 1] ∧
      (resume s st).prepTimers = st.prepTimers ∧
      (resume s st).prepareRef = st.prepareRef) := by
  obtain ⟨c1, c2, c3, c4, c5, c6, c7, c8⟩ := clears_fields st
  refine ⟨?_, ?_, ?_⟩
  · rw [play_preroll s st hne hD]
    refine ⟨rfl, ?_, ?_, ?_, ?_, ?_, ?_⟩
    · exact c5
    · exact c3
    · exact c4
    · rw [c6]
    · rw [c6]
    · exact c8
  · intro i hi0 hilt
    rw [playFromIndex_eq s st i hne hi0 hilt]
    have hseq : ({ clearPrepareTimer (clearAdvanceTimer st) with
        playbackState := PBState.playing } : SchedState).sequence = st.sequence := c1
    have hmap2 : ({ clearPrepareTimer (clearAdvanceTimer st) with
          playbackState := PBState.playing } : SchedState).mappedNotes.length =
        ({ clearPrepareTimer (clearAdvanceTimer st) with
          playbackState := PBState.playing } : SchedState).sequence.length := by
      rw [hseq]
      have : ({ clearPrepareTimer (clearAdvanceTimer st) with
          playbackState := PBState.playing } : SchedState).mappedNotes =
          st.mappedNotes := c2
      rw [this, hmap]
    obtain ⟨m, _, hstep⟩ := playNoteAtIndex_playing s
      { clearPrepareTimer (clearAdvanceTimer st) with playbackState := .playing } i
      hi0 (by rw [hseq]; exact hilt) hmap2 rfl
    rw [hstep]
    refine ⟨rfl, ?_, rfl, ?_, ?_⟩
    · show ({ clearPrepareTimer (clearAdvanceTimer st) with
        playbackState := PBState.playing } : SchedState).triggered ++ [i] =
        st.triggered ++ [i]
      rw [(show ({ clearPrepareTimer (clearAdvanceTimer st) with
        playbackState := PBState.playing } : SchedState).triggered =
        st.triggered from c5)]
    · exact c7
    · rfl
  · intro h0 hlt
    rw [resume_eq s st hlt]
    obtain ⟨m, _, hstep⟩ := playNoteAtIndex_playing s
      { st with playbackState := .playing } (st.currentIndex + 1)
      h0 hlt hmap rfl
    rw [hstep]
    exact ⟨rfl, rfl, rfl, rfl⟩

/-- Witness for C5 with a 2000 ms pre-roll on a freshly generated sequence. -/
theorem preroll_spec_witness :
    (¬ (generate ⟨"pitch", "C", ⟨5, 3⟩, 90, 7, 2000⟩ (fun k => k) (fun _ => 0)
        initialSchedState).sequence = []) ∧
    (play ⟨"pitch", "C", ⟨5, 3⟩, 90, 7, 2000⟩
      (generate ⟨"pitch", "C", ⟨5, 3⟩, 90, 7, 2000⟩ (fun k => k) (fun _ => 0)
        initialSchedState)).playbackState = .playing ∧
    (play ⟨"pitch", "C", ⟨5, 3⟩, 90, 7, 2000⟩
      (generate ⟨"pitch", "C", ⟨5, 3⟩, 90, 7, 2000⟩ (fun k => k) (fun _ => 0)
        initialSchedState)).triggered =
      (generate ⟨"pitch", "C", ⟨5, 3⟩, 90, 7, 2000⟩ (fun k => k) (fun _ => 0)
        initialSchedState).triggered := by
  have hne : ¬ (generate ⟨"pitch", "C", ⟨5, 3⟩, 90, 7, 2000⟩ (fun k => k)
      (fun _ => 0) initialSchedState).sequence = [] := by decide
  have H := preroll_spec ⟨"pitch", "C", ⟨5, 3⟩, 90, 7, 2000⟩
    (generate ⟨"pitch", "C", ⟨5, 3⟩, 90, 7, 2000⟩ (fun k => k) (fun _ => 0)
      initialSchedState) hne (by norm_num) (by decide)
  exact ⟨hne, H.1.1, H.1.2.1⟩

/-- With a well-formed `timerRef`, the clear leaves no live advance timer. -/
theorem clearAdv_empty (st : SchedState)
    (hwf : ∀ t ∈ st.advTimers, st.timerRef = some t.id) :
    (clearAdvanceTimer st).advTimers = [] := by
  cases h : st.timerRef with
  | none =>
    have hnil : st.advTimers = [] := by
      rw [List.eq_nil_iff_forall_not_mem]
      intro t ht
      have h2 := hwf t ht
      rw [h] at h2
      exact Option.noConfusion h2
    simp [clearAdvanceTimer, h, hnil]
  | some k =>
    simp only [clearAdvanceTimer, h]
    rw [List.filter_eq_nil_iff]
    intro t ht
    have h2 := hwf t ht
    rw [h] at h2
    have h3 : t.id = k := (Option.some.inj h2).symm
    simp [h3]

/-- With a well-formed `prepareRef`, the clear leaves no live pre-roll timer. -/
theorem clearPrep_empty (st : SchedState)
    (hwf : ∀ t ∈ st.prepTimers, st.prepareRef = some t.id) :
    (clearPrepareTimer st).prepTimers = [] := by
  cases h : st.prepareRef with
  | none =>
    have hnil : st.prepTimers = [] := by
      rw [List.eq_nil_iff_forall_not_mem]
      intro t ht
      have h2 := hwf t ht
      rw [h] at h2
      exact Option.noConfusion h2
    simp [clearPrepareTimer, h, hnil]
  | some k =>
    simp only [clearPrepareTimer, h]
    rw [List.filter_eq_nil_iff]
    intro t ht
    have h2 := hwf t ht
    rw [h] at h2
    have h3 : t.id = k := (Option.some.inj h2).symm
    simp [h3]

theorem pause_fields (st : SchedState) :
    (pause st).playbackState = .paused ∧
    (pause st).sequence = st.sequence ∧
    (pause st).mappedNotes = st.mappedNotes ∧
    (pause st).currentIndex = st.currentIndex ∧
    (pause st).currentNote = st.currentNote ∧
    (pause st).triggered = st.triggered ∧
    (pause st).nextId = st.nextId := by
  unfold pause
  obtain ⟨p1, p2, p3, p4, p5, p6, p7, p8, p9, p10⟩ :=
    clearPrep_spec { st with playbackState := PBState.paused }
  obtain ⟨a1, a2, a3, a4, a5, a6, a7, a8, a9⟩ :=
    clearAdv_spec (clearPrepareTimer { st with playbackState := PBState.paused })
  exact ⟨a3.trans p3, a1.trans p1, a2.trans p2, a4.trans p4, a5.trans p5,
    a8.trans p8, a9.trans p9⟩

theorem pause_timers (st : SchedState)
    (hwfA : ∀ t ∈ st.advTimers, st.timerRef = some t.id)
    (hwfP : ∀ t ∈ st.prepTimers, st.prepareRef = some t.id) :
    (pause st).advTimers = [] ∧ (pause st).prepTimers = [] := by
  unfold pause
  obtain ⟨p1, p2, p3, p4, p5, p6, p7, p8, p9, p10⟩ :=
    clearPrep_spec { st with playbackState := PBState.paused }
  constructor
  · apply clearAdv_empty
    intro t ht
    rw [p6] at ht
    rw [p7]
    exact hwfA t ht
  · obtain ⟨a1, a2, a3, a4, a5, a6, a7, a8, a9⟩ :=
      clearAdv_spec (clearPrepareTimer { st with playbackState := PBState.paused })
    rw [a6]
    exact clearPrep_empty _ hwfP

theorem stop_fields (st : SchedState) :
    (stop st).playbackState = .idle ∧
    (stop st).sequence = st.sequence ∧
    (stop st).mappedNotes = st.mappedNotes ∧
    (stop st).currentIndex = -1 ∧
    (stop st).currentNote = none ∧
    (stop st).triggered = st.triggered ∧
    (stop st).nextId = st.nextId := by
  unfold stop
  obtain ⟨p1, p2, p3, p4, p5, p6, p7, p8, p9, p10⟩ :=
    clearPrep_spec { st with
      playbackState := PBState.idle,
      currentIndex := -1,
      currentNote := none }
  obtain ⟨a1, a2, a3, a4, a5, a6, a7, a8, a9⟩ :=
    clearAdv_spec (clearPrepareTimer { st with
      playbackState := PBState.idle,
      currentIndex := -1,
      currentNote := none })
  exact ⟨a3.trans p3, a1.trans p1, a2.trans p2, a4.trans p4, a5.trans p5,
    a8.trans p8, a9.trans p9⟩

theorem stop_timers (st : SchedState)
    (hwfA : ∀ t ∈ st.advTimers, st.timerRef = some t.id)
    (hwfP : ∀ t ∈ st.prepTimers, st.prepareRef = some t.id) :
    (stop st).advTimers = [] ∧ (stop st).prepTimers = [] := by
  unfold stop
  obtain ⟨p1, p2, p3, p4, p5, p6, p7, p8, p9, p10⟩ :=
    clearPrep_spec { st with
      playbackState := PBState.idle,
      currentIndex := -1,
      currentNote := none }
  constructor
  · apply clearAdv_empty
    intro t ht
    rw [p6] at ht
    rw [p7]
    exact hwfA t ht
  · obtain ⟨a1, a2, a3, a4, a5, a6, a7, a8, a9⟩ :=
      clearAdv_spec (clearPrepareTimer { st with
        playbackState := PBState.idle,
        currentIndex := -1,
        currentNote := none })
    rw [a6]
    exact clearPrep_empty _ hwfP

/-- Function `playNoteAtIndex` either leaves the advance timers alone or appends
exactly one. -/
theorem playNoteAtIndex_advTimers (s : Settings) (st : SchedState) (index : Int) :
    (playNoteAtIndex s st index).advTimers = st.advTimers ∨
    (playNoteAtIndex s st index).advTimers =
      st.advTimers ++ [⟨st.nextId, (60 / s.bpm) * 1000, index + 1⟩] := by
  unfold playNoteAtIndex
  split
  · exact Or.inl rfl
  · split
    · exact Or.inl rfl
    · dsimp only
      split
      · exact Or.inr rfl
      · exact Or.inl rfl

/-- Function `playNoteAtIndex` never touches the pre-roll timers. -/
theorem playNoteAtIndex_prep (s : Settings) (st : SchedState) (index : Int) :
    (playNoteAtIndex s st index).prepTimers = st.prepTimers ∧
    (playNoteAtIndex s st index).prepareRef = st.prepareRef := by
  unfold playNoteAtIndex
  split
  · exact ⟨rfl, rfl⟩
  · split
    · exact ⟨rfl, rfl⟩
    · dsimp only
      split
      · exact ⟨rfl, rfl⟩
      · exact ⟨rfl, rfl⟩

/-- C6: `pause()` from Playing cancels the pending advance and pre-roll
timers while leaving the cursor and the trigger log unchanged (the current
note is not re-triggered); a subsequent `resume()` transitions to Playing and
immediately triggers exactly the note at `cursor + 1`, never the one at
`cursor`. -/
theorem pause_resume_spec (s : Settings) (st : SchedState)
    (_hplay : st.playbackState = .playing)
    (hwfA : ∀ t ∈ st.advTimers, st.timerRef = some t.id)
    (hwfP : ∀ t ∈ st.prepTimers, st.prepareRef = some t.id)
    (hmap : st.mappedNotes.length = st.sequence.length)
    (h0 : 0 ≤ st.currentIndex + 1)
    (hnext : st.currentIndex + 1 < (st.sequence.length : Int)) :
    (pause st).playbackState = .paused ∧
    (pause st).advTimers = [] ∧
    (pause st).prepTimers = [] ∧
    (pause st).currentIndex = st.currentIndex ∧
    (pause st).currentNote = st.currentNote ∧
    (pause st).triggered = st.triggered ∧
    (resume s (pause st)).playbackState = .playing ∧
    (resume s (pause st)).triggered = st.triggered ++ [st.currentIndex + 1] ∧
    st.currentIndex + 1 ≠ st.currentIndex := by
  obtain ⟨f1, f2, f3, f4, f5, f6, f7⟩ := pause_fields st
  obtain ⟨t1, t2⟩ := pause_timers st hwfA hwfP
  have hre : resume s (pause st) =
      playNoteAtIndex s { pause st with playbackState := .playing }
        ((pause st).currentIndex + 1) :=
    resume_eq s (pause st) (by rw [f4, f2]; exact hnext)
  have hmap2 : ({ pause st with playbackState := PBState.playing } :
        SchedState).mappedNotes.length =
      ({ pause st with playbackState := PBState.playing } :
        SchedState).sequence.length := by
    show (pause st).mappedNotes.length = (pause st).sequence.length
    rw [f3, f2]
    exact hmap
  obtain ⟨m, _, hstep⟩ := playNoteAtIndex_playing s
    { pause st with playbackState := .playing } ((pause st).currentIndex + 1)
    (by rw [f4]; exact h0)
    (by show (pause st).currentIndex + 1 < ((pause st).sequence.length : Int)
        rw [f4, f2]
        exact hnext)
    hmap2 rfl
  refine ⟨f1, t1, t2, f4, f5, f6, ?_, ?_, by omega⟩
  · rw [hre, hstep]
  · rw [hre, hstep]
    show (pause st).triggered ++ [(pause st).currentIndex + 1] =
      st.triggered ++ [st.currentIndex + 1]
    rw [f6, f4]

/-- Witness for C6 on the concrete Playing state after `generate` + `play`. -/
theorem pause_resume_spec_witness :
    (play ⟨"pitch", "C", ⟨5, 3⟩, 90, 7, 0⟩
      (generate ⟨"pitch", "C", ⟨5, 3⟩, 90, 7, 0⟩ (fun k => k) (fun _ => 0)
        initialSchedState)).playbackState = .playing ∧
    (pause (play ⟨"pitch", "C", ⟨5, 3⟩, 90, 7, 0⟩
      (generate ⟨"pitch", "C", ⟨5, 3⟩, 90, 7, 0⟩ (fun k => k) (fun _ => 0)
        initialSchedState))).advTimers = [] ∧
    (resume ⟨"pitch", "C", ⟨5, 3⟩, 90, 7, 0⟩
      (pause (play ⟨"pitch", "C", ⟨5, 3⟩, 90, 7, 0⟩
        (generate ⟨"pitch", "C", ⟨5, 3⟩, 90, 7, 0⟩ (fun k => k) (fun _ => 0)
          initialSchedState)))).triggered =
      (play ⟨"pitch", "C", ⟨5, 3⟩, 90, 7, 0⟩
        (generate ⟨"pitch", "C", ⟨5, 3⟩, 90, 7, 0⟩ (fun k => k) (fun _ => 0)
          initialSchedState)).triggered ++
        [(play ⟨"pitch", "C", ⟨5, 3⟩, 90, 7, 0⟩
          (generate ⟨"pitch", "C", ⟨5, 3⟩, 90, 7, 0⟩ (fun k => k) (fun _ => 0)
            initialSchedState)).currentIndex + 1] := by
  have H := pause_resume_spec ⟨"pitch", "C", ⟨5, 3⟩, 90, 7, 0⟩
    (play ⟨"pitch", "C", ⟨5, 3⟩, 90, 7, 0⟩
      (generate ⟨"pitch", "C", ⟨5, 3⟩, 90, 7, 0⟩ (fun k => k) (fun _ => 0)
        initialSchedState))
    (by decide) (by decide) (by decide) (by decide) (by decide) (by decide)
  exact ⟨by decide, H.2.1, H.2.2.2.2.2.2.2.1⟩

/-- C7 counterexample: from the initial state, `generate` then `play` (no
pre-roll) leaves the scheduler Playing with exactly one pending advance
timer; calling `resume` in that state triggers the next note and schedules a
second advance timer without cancelling the first — two advance timers are
then pending at once, so `resume` does not cancel before scheduling. -/
theorem resume_no_cancel_counterexample :
    (play ⟨"pitch", "C", ⟨5, 3⟩, 90, 7, 0⟩
      (generate ⟨"pitch", "C", ⟨5, 3⟩, 90, 7, 0⟩ (fun k => k) (fun _ => 0)
        initialSchedState)).playbackState = .playing ∧
    (play ⟨"pitch", "C", ⟨5, 3⟩, 90, 7, 0⟩
      (generate ⟨"pitch", "C", ⟨5, 3⟩, 90, 7, 0⟩ (fun k => k) (fun _ => 0)
        initialSchedState)).advTimers.length = 1 ∧
    (resume ⟨"pitch", "C", ⟨5, 3⟩, 90, 7, 0⟩
      (play ⟨"pitch", "C", ⟨5, 3⟩, 90, 7, 0⟩
        (generate ⟨"pitch", "C", ⟨5, 3⟩, 90, 7, 0⟩ (fun k => k) (fun _ => 0)
          initialSchedState))).advTimers.length = 2 := by
  decide

/-- C7 (amended): `pause`, `stop` and `generate` cancel both pending timers
outright; `play` and `playFromIndex` cancel both before scheduling at most
one new timer; and `resume` — which cancels nothing — preserves the
at-most-one-pending-advance-timer invariant only when invoked on a Paused
state (whose timers `pause` already cancelled). -/
theorem timer_invariant_spec (s : Settings) (randS randE : Nat → Nat)
    (st : SchedState) (i : Int)
    (hwfA : ∀ t ∈ st.advTimers, st.timerRef = some t.id)
    (hwfP : ∀ t ∈ st.prepTimers, st.prepareRef = some t.id)
    (hA1 : st.advTimers.length ≤ 1) (hP1 : st.prepTimers.length ≤ 1) :
    ((pause st).advTimers = [] ∧ (pause st).prepTimers = []) ∧
    ((stop st).advTimers = [] ∧ (stop st).prepTimers = []) ∧
    ((generate s randS randE st).advTimers = [] ∧
      (generate s randS randE st).prepTimers = []) ∧
    ((play s st).advTimers.length ≤ 1 ∧ (play s st).prepTimers.length ≤ 1) ∧
    ((playFromIndex s st i).advTimers.length ≤ 1 ∧
      (playFromIndex s st i).prepTimers.length ≤ 1) ∧
    ((resume s (pause st)).advTimers.length ≤ 1 ∧
      (resume s (pause st)).prepTimers.length ≤ 1) := by
  obtain ⟨c1, c2, c3, c4, c5, c6, c7, c8⟩ := clears_fields st
  have hadvE : (clearAdvanceTimer st).advTimers = [] := clearAdv_empty st hwfA
  have hprepE : (clearPrepareTimer (clearAdvanceTimer st)).prepTimers = [] := by
    apply clearPrep_empty
    obtain ⟨a1, a2, a3, a4, a5, a6, a7, a8, a9⟩ := clearAdv_spec st
    intro t ht
    rw [a6] at ht
    rw [a7]
    exact hwfP t ht
  obtain ⟨pt1, pt2⟩ := pause_timers st hwfA hwfP
  have hplayCase : (play s st).advTimers.length ≤ 1 ∧
      (play s st).prepTimers.length ≤ 1 := by
    by_cases hne : st.sequence = []
    · have heq : play s st = st := by
        unfold play
        rw [if_pos hne]
      rw [heq]
      exact ⟨hA1, hP1⟩
    · by_cases hD : 0 < s.prepareDelayMs
      · rw [play_preroll s st hne hD]
        constructor
        · show ((clearPrepareTimer (clearAdvanceTimer st)).advTimers).length ≤ 1
          rw [c8, hadvE]
          decide
        · show ((clearPrepareTimer (clearAdvanceTimer st)).prepTimers ++
            [(⟨(clearPrepareTimer (clearAdvanceTimer st)).nextId,
              s.prepareDelayMs, 0⟩ : Timer)]).length ≤ 1
          rw [hprepE]
          simp
      · rw [play_immediate s st hne hD]
        constructor
        · rcases playNoteAtIndex_advTimers s
            { clearPrepareTimer (clearAdvanceTimer st) with
              playbackState := .playing } 0 with h | h
          · rw [h]
            show ((clearPrepareTimer (clearAdvanceTimer st)).advTimers).length ≤ 1
            rw [c8, hadvE]
            decide
          · rw [h]
            show ((clearPrepareTimer (clearAdvanceTimer st)).advTimers ++ _).length ≤ 1
            rw [c8, hadvE]
            simp
        · obtain ⟨hpp, _⟩ := playNoteAtIndex_prep s
            { clearPrepareTimer (clearAdvanceTimer st) with
              playbackState := .playing } 0
          rw [hpp]
          show ((clearPrepareTimer (clearAdvanceTimer st)).prepTimers).length ≤ 1
          rw [hprepE]
          decide
  refine ⟨⟨pt1, pt2⟩, stop_timers st hwfA hwfP, ?_, hplayCase, ?_, ?_⟩
  · obtain ⟨s1, s2⟩ := stop_timers st hwfA hwfP
    exact ⟨(show (generate s randS randE st).advTimers =
        (stop st).advTimers from rfl).trans s1,
      (show (generate s randS randE st).prepTimers =
        (stop st).prepTimers from rfl).trans s2⟩
  · by_cases hne : st.sequence = []
    · have heq : playFromIndex s st i = st := by
        unfold playFromIndex
        rw [if_pos hne]
      rw [heq]
      exact ⟨hA1, hP1⟩
    · by_cases hv : i < 0 ∨ (st.sequence.length : Int) ≤ i
      · have heq : playFromIndex s st i = st := by
          unfold playFromIndex
          rw [if_neg hne, if_pos hv]
        rw [heq]
        exact ⟨hA1, hP1⟩
      · rw [playFromIndex_eq s st i hne (by omega) (by omega)]
        constructor
        · rcases playNoteAtIndex_advTimers s
            { clearPrepareTimer (clearAdvanceTimer st) with
              playbackState := .playing } i with h | h
          · rw [h]
            show ((clearPrepareTimer (clearAdvanceTimer st)).advTimers).length ≤ 1
            rw [c8, hadvE]
            decide
          · rw [h]
            show ((clearPrepareTimer (clearAdvanceTimer st)).advTimers ++ _).length ≤ 1
            rw [c8, hadvE]
            simp
        · obtain ⟨hpp, _⟩ := playNoteAtIndex_prep s
            { clearPrepareTimer (clearAdvanceTimer st) with
              playbackState := .playing } i
          rw [hpp]
          show ((clearPrepareTimer (clearAdvanceTimer st)).prepTimers).length ≤ 1
          rw [hprepE]
          decide
  · by_cases hn : (pause st).currentIndex + 1 < ((pause st).sequence.length : Int)
    · rw [resume_eq s (pause st) hn]
      constructor
      · rcases playNoteAtIndex_advTimers s
          { pause st with playbackState := .playing }
          ((pause st).currentIndex + 1) with h | h
        · rw [h]
          show ((pause st).advTimers).length ≤ 1
          rw [pt1]
          decide
        · rw [h]
          show ((pause st).advTimers ++ _).length ≤ 1
          rw [pt1]
          simp
      · obtain ⟨hpp, _⟩ := playNoteAtIndex_prep s
          { pause st with playbackState := .playing }
          ((pause st).currentIndex + 1)
        rw [hpp]
        show ((pause st).prepTimers).length ≤ 1
        rw [pt2]
        decide
    · have heq : resume s (pause st) =
          { pause st with playbackState := .playing } := by
        unfold resume
        dsimp only
        rw [if_neg hn]
      rw [heq]
      constructor
      · show ((pause st).advTimers).length ≤ 1
        rw [pt1]
        decide
      · show ((pause st).prepTimers).length ≤ 1
        rw [pt2]
        decide

/-- Witness for the amended C7 on the concrete Playing state after
`generate` + `play`. -/
theorem timer_invariant_spec_witness :
    (∀ t ∈ (play ⟨"pitch", "C", ⟨5, 3⟩, 90, 7, 0⟩
        (generate ⟨"pitch", "C", ⟨5, 3⟩, 90, 7, 0⟩ (fun k => k) (fun _ => 0)
          initialSchedState)).advTimers,
      (play ⟨"pitch", "C", ⟨5, 3⟩, 90, 7, 0⟩
        (generate ⟨"pitch", "C", ⟨5, 3⟩, 90, 7, 0⟩ (fun k => k) (fun _ => 0)
          initialSchedState)).timerRef = some t.id) ∧
    (pause (play ⟨"pitch", "C", ⟨5, 3⟩, 90, 7, 0⟩
      (generate ⟨"pitch", "C", ⟨5, 3⟩, 90, 7, 0⟩ (fun k => k) (fun _ => 0)
        initialSchedState))).advTimers = [] ∧
    (stop (play ⟨"pitch", "C", ⟨5, 3⟩, 90, 7, 0⟩
      (generate ⟨"pitch", "C", ⟨5, 3⟩, 90, 7, 0⟩ (fun k => k) (fun _ => 0)
        initialSchedState))).advTimers = [] ∧
    (resume ⟨"pitch", "C", ⟨5, 3⟩, 90, 7, 0⟩
      (pause (play ⟨"pitch", "C", ⟨5, 3⟩, 90, 7, 0⟩
        (generate ⟨"pitch", "C", ⟨5, 3⟩, 90, 7, 0⟩ (fun k => k) (fun _ => 0)
          initialSchedState)))).advTimers.length ≤ 1 := by
  have H := timer_invariant_spec ⟨"pitch", "C", ⟨5, 3⟩, 90, 7, 0⟩
    (fun k => k) (fun _ => 0)
    (play ⟨"pitch", "C", ⟨5, 3⟩, 90, 7, 0⟩
      (generate ⟨"pitch", "C", ⟨5, 3⟩, 90, 7, 0⟩ (fun k => k) (fun _ => 0)
        initialSchedState)) 3
    (by decide) (by decide) (by decide) (by decide)
  exact ⟨by decide, H.1.1, H.2.1.1, H.2.2.2.2.2.1⟩

end GuitarPractice
